import Mathlib

/-!
# gzextfs: block store and metadata caches

A shallow embedding of `gzextio.cxx` (the compressed block store) and of the
cache and handle-table code of `gzextfs.cxx`, followed by the properties
proved about them.

Conventions of the embedding.

* `std::map<K,V>` is an association list with at most one entry per key; only
  `find`, `operator[]` assignment, `erase` and `size` are used by the code, so
  the iteration order of the map is not represented.
* `uint64_t` and `unsigned long` values are natural numbers, reduced modulo
  `2 ^ 64` wherever the C arithmetic can wrap.
* The two `#define`s `GZ_CACHE_BLOCKSIZE` and `GZ_CACHE_SIZE` are carried in a
  record `GzParams`; `gzParams` holds the values of the source.  Every
  definition takes the record, so that a result proved for all records holds
  in particular for the source constants, and concrete runs can be evaluated
  on small records.
* zlib and libext2fs are external: they appear as records of answer functions
  (`GzStream`, `Ext2Lib`), and every call made into them is appended to a log
  kept in the state, which is how "reads the stream again" or "makes no call"
  is observed.
-/

namespace GzExt

/-! ## `std::map` -/

/-- Association-list model of `std::map`. -/
abbrev StdMap (κ ν : Type) := List (κ × ν)

section StdMapOps
variable {κ ν : Type} [DecidableEq κ]

/-- Model of `m.find(k)`: `none` stands for `m.end()`. -/
def mapFind : StdMap κ ν → κ → Option ν
  | [], _ => none
  | (k', v) :: rest, k => if k' = k then some v else mapFind rest k

/-- Model of `m.erase(it)` for the iterator of key `k`. -/
def mapErase : StdMap κ ν → κ → StdMap κ ν
  | [], _ => []
  | (k', v) :: rest, k => if k' = k then mapErase rest k else (k', v) :: mapErase rest k

/-- Model of `m[k] = v`. -/
def mapAssign (m : StdMap κ ν) (k : κ) (v : ν) : StdMap κ ν :=
  (k, v) :: mapErase m k

/-- Model of `m.size()`. -/
def mapSize (m : StdMap κ ν) : Nat := m.length

/-- The keys held by the map. -/
def mapKeys (m : StdMap κ ν) : List κ := m.map Prod.fst

end StdMapOps

/-! ## gzextio.cxx -/

/-- One `unsigned char`. -/
abbrev Byte := Fin 256

/-- The constants `GZ_CACHE_BLOCKSIZE` and `GZ_CACHE_SIZE`. -/
structure GzParams where
  GZ_CACHE_BLOCKSIZE : Nat
  GZ_CACHE_SIZE : Nat
  deriving DecidableEq

/-- The values `#define`d in `gzextio.cxx`. -/
def gzParams : GzParams :=
  { GZ_CACHE_BLOCKSIZE := 1024 * 1024, GZ_CACHE_SIZE := 1024 }

/-- Behaviour of the zlib stream behind a `gzFile`.  `seekOk pos` tells whether
`gzseek(file, pos, SEEK_SET)` returns something other than `-1`; `avail pos`
is the run of decompressed bytes the stream can deliver from position `pos`
(empty when the read fails). -/
structure GzStream where
  seekOk : Nat → Bool
  avail : Nat → List Byte

/-- Calls made on the `gzFile`. -/
inductive GzCall where
  | gzseek (pos : Nat)
  | gzread (len : Nat)
  deriving DecidableEq, Repr

/-- Outcome of `gzseek(file, pos, SEEK_SET)`: `true` when it is not `-1`. -/
def gzseek (S : GzStream) (pos : Nat) : Bool := S.seekOk pos

/-- Bytes stored by `gzread(file, data, len)` issued at position `pos`; the
return value of `gzread` is the length of this list. -/
def gzread (S : GzStream) (pos len : Nat) : List Byte := (S.avail pos).take len

/-- Model of `struct gzio_priv`.  `file` is the log of the calls made on the
`gzFile`, newest first; the mutex is not represented. -/
structure gzio_priv where
  offset : Nat
  file : List GzCall
  cache : StdMap Nat (List Byte)
  index : Nat
  history : List Nat
  deriving DecidableEq

/-- Model of `fetch_block`.  The first component is the returned pointer
(`none` for `NULL`), given as the contents of the block it points to.

`history[index]` on an index outside the vector, and `cache.find(evict)`
returning `end()`, are undefined in C++; the model reads `0` and erases
nothing in those cases. -/
def fetch_block (P : GzParams) (S : GzStream) (priv : gzio_priv) (block : Nat) :
    Option (List Byte) × gzio_priv :=
  match mapFind priv.cache block with
  | some data => (some data, priv)
  | none =>
    let pos := (block * P.GZ_CACHE_BLOCKSIZE) % 2 ^ 64
    let priv1 := { priv with file := GzCall.gzseek pos :: priv.file }
    if gzseek S pos = false then (none, priv1)
    else
      let data := gzread S pos P.GZ_CACHE_BLOCKSIZE
      let priv2 := { priv1 with file := GzCall.gzread P.GZ_CACHE_BLOCKSIZE :: priv1.file }
      if data.length ≠ P.GZ_CACHE_BLOCKSIZE then (none, priv2)
      else
        let cache1 :=
          if mapSize priv2.cache = P.GZ_CACHE_SIZE then
            mapErase priv2.cache (priv2.history.getD priv2.index 0)
          else priv2.cache
        (some data,
          { priv2 with
            cache := mapAssign cache1 block data
            history := priv2.history.set priv2.index block
            index := (priv2.index + 1) % P.GZ_CACHE_SIZE })

/-- The `while (len > 0)` loop of `gzio_do_read`.  `buf` is the list of bytes
copied into the caller's buffer so far.  Every iteration copies at least one
byte when the block size is positive, so `fuel = len` iterations are enough;
`none` means the fuel ran out. -/
def gzio_do_read_loop (P : GzParams) (S : GzStream) :
    Nat → gzio_priv → List Byte → Nat → Nat → Option (Int × List Byte × gzio_priv)
  | fuel, priv, buf, off, len =>
    if len = 0 then some (0, buf, priv)
    else
      match fuel with
      | 0 => none
      | fuel + 1 =>
        let block := off / P.GZ_CACHE_BLOCKSIZE
        match fetch_block P S priv block with
        | (none, priv1) => some (-1, buf, priv1)
        | (some data, priv1) =>
          let copyoff := off - block * P.GZ_CACHE_BLOCKSIZE
          let copylen0 := P.GZ_CACHE_BLOCKSIZE - copyoff
          let copylen := if copylen0 > len then len else copylen0
          gzio_do_read_loop P S fuel priv1 (buf ++ (data.drop copyoff).take copylen)
            ((off + copylen) % 2 ^ 64) (len - copylen)

/-- Model of `gzio_do_read(priv, buf, off, len)`: the return code, the bytes
copied to `buf`, and the new state. -/
def gzio_do_read (P : GzParams) (S : GzStream) (priv : gzio_priv) (off len : Nat) :
    Option (Int × List Byte × gzio_priv) :=
  gzio_do_read_loop P S len priv [] off len

/-- The private state built by `gzio_open` once `gzopen` has succeeded. -/
def gzio_open (P : GzParams) : gzio_priv :=
  { offset := 0
    file := []
    cache := []
    index := 0
    history := List.replicate P.GZ_CACHE_SIZE 0 }

/-- The stream of an intact image: seeking always succeeds and a read delivers
the bytes of the image from the requested position on. -/
def imageStream (img : List Byte) : GzStream :=
  { seekOk := fun _ => true
    avail := fun pos => img.drop pos }

/-- Error codes of `ext2_err.h`.  The header is not part of the repository, so
the numeric value is a parameter; it is an error code, hence not `0`. -/
structure Ext2Err where
  EXT2_ET_INVALID_ARGUMENT : Int
  invalid_argument_ne_zero : EXT2_ET_INVALID_ARGUMENT ≠ 0

/-- The fields of `struct struct_io_channel` used by the manager: the `int`
field `block_size` and the private data. -/
structure io_channel where
  block_size : Int
  private_data : gzio_priv
  deriving DecidableEq

/-- Conversion of a signed C integer to `uint64_t`. -/
def toU64 (z : Int) : Nat := (z % 2 ^ 64).toNat

/-- Model of `isspace` in the C locale. -/
def isspace (c : Char) : Bool :=
  c = ' ' || c = '\t' || c = '\n' || c = Char.ofNat 11 || c = Char.ofNat 12 || c = '\r'

/-- Value of the longest run of decimal digits at the head of the string,
continuing from `acc`. -/
def atoi_digits : Nat → List Char → Nat
  | acc, [] => acc
  | acc, c :: cs =>
    if c.isDigit then atoi_digits (acc * 10 + (c.toNat - 48)) cs else acc

/-- Model of `strtol(nptr, NULL, 10)`: optional white space, an optional sign,
then the longest run of decimal digits (`0` when there is none); a value
outside the range of `long` is replaced by `LONG_MIN` or `LONG_MAX`. -/
def strtol10 (s : List Char) : Int :=
  match s.dropWhile isspace with
  | '-' :: rest => max (-(2 ^ 63)) (-(atoi_digits 0 rest : Int))
  | '+' :: rest => min (2 ^ 63 - 1) (atoi_digits 0 rest : Int)
  | rest => min (2 ^ 63 - 1) (atoi_digits 0 rest : Int)

/-- Conversion of a `long` to the 32-bit `int`: the value modulo `2 ^ 32` in the
range `-2 ^ 31 .. 2 ^ 31 - 1`. -/
def toInt32 (z : Int) : Int := (z + 2 ^ 31) % 2 ^ 32 - 2 ^ 31

/-- Model of `atoi`, whose result is an `int` of 32 bits.  For a string whose
value fits an `int` it is that value.  For other strings the C standard leaves
the result undefined; the model then does what the C library does,
`(int) strtol(nptr, NULL, 10)`, so that the result is always in the range of
`int`. -/
def atoi (s : List Char) : Int := toInt32 (strtol10 s)

/-- Model of `gzio_set_blksize`. -/
def gzio_set_blksize (channel : io_channel) (blksize : Int) : Int × io_channel :=
  (0, { channel with block_size := blksize })

/-- Model of `gzio_read_blk`.  `block` is an `unsigned long`, so
`block * channel->block_size` is computed in `unsigned long`. -/
def gzio_read_blk (P : GzParams) (S : GzStream) (channel : io_channel) (block : Nat)
    (count : Int) : Option (Int × List Byte × io_channel) :=
  let priv := channel.private_data
  let off := (priv.offset + (block * toU64 channel.block_size) % 2 ^ 64) % 2 ^ 64
  let len := toU64 (if count < 0 then -count else count * channel.block_size)
  (gzio_do_read P S priv off len).map
    (fun r => (r.1, r.2.1, { channel with private_data := r.2.2 }))

/-- Model of `gzio_read_blk64`; `block` is an `unsigned long long`. -/
def gzio_read_blk64 (P : GzParams) (S : GzStream) (channel : io_channel) (block : Nat)
    (count : Int) : Option (Int × List Byte × io_channel) :=
  let priv := channel.private_data
  let off := (priv.offset + (block * toU64 channel.block_size) % 2 ^ 64) % 2 ^ 64
  let len := toU64 (if count < 0 then -count else count * channel.block_size)
  (gzio_do_read P S priv off len).map
    (fun r => (r.1, r.2.1, { channel with private_data := r.2.2 }))

/-- Model of `gzio_set_option`; `arg = none` is the `NULL` pointer. -/
def gzio_set_option (E : Ext2Err) (channel : io_channel) (option : List Char)
    (arg : Option (List Char)) : Int × io_channel :=
  if option = "offset".toList then
    match arg with
    | none => (E.EXT2_ET_INVALID_ARGUMENT, channel)
    | some a =>
      (0, { channel with
            private_data := { channel.private_data with offset := toU64 (atoi a) } })
  else (E.EXT2_ET_INVALID_ARGUMENT, channel)

/-! ## gzextfs.cxx -/

/-- The root inode number `EXT2_ROOT_INO` of `ext2_fs.h`. -/
def EXT2_ROOT_INO : Nat := 2

/-- Calls made into libext2fs. -/
inductive Ext2Call where
  | ext2fs_lookup (dir : Nat) (name : List Char)
  | ext2fs_dir_iterate (dir : Nat)
  | ext2fs_file_open (ino : Nat)
  | ext2fs_file_llseek (file : Nat) (off : Int)
  | ext2fs_file_read (file : Nat) (size : Nat)
  | ext2fs_file_close (file : Nat)
  deriving DecidableEq, Repr

/-- Behaviour of libext2fs.  Every answer may depend on the calls made before
(the first argument, newest first), which covers file positions and any other
state the library keeps.

* `lookup`: the inode found, `none` for a nonzero error code;
* `dir_iterate`: the names of the entries handed to the callback, in order, and
  whether the call returned `0`;
* `file_open`: the new file context, `none` for a nonzero error code;
* `file_llseek`: whether the call returned `0`;
* `file_read`: the bytes read, `none` for a nonzero error code. -/
structure Ext2Lib where
  lookup : List Ext2Call → Nat → List Char → Option Nat
  dir_iterate : List Ext2Call → Nat → List (List Char) × Bool
  file_open : List Ext2Call → Nat → Option Nat
  file_llseek : List Ext2Call → Nat → Int → Bool
  file_read : List Ext2Call → Nat → Nat → Option (List Byte)

/-- Model of `struct file_state`, which holds nothing but a mutex. -/
inductive file_state where
  | mk
  deriving DecidableEq, Repr

/-- Model of `struct gzfs_priv`: the log of the calls made through `fs`
(newest first), the path cache, the directory cache and the file table.  The
locks and the inode cache are not represented. -/
structure gzfs_priv where
  fs : List Ext2Call
  path_cache : StdMap (List Char) Nat
  dir_cache : StdMap Nat (List (List Char))
  file_table : StdMap Nat file_state
  deriving DecidableEq

/-- Result of a function whose C++ body can step outside defined behaviour
(here: dereferencing the `end()` iterator of a map). -/
inductive Outcome (α : Type) where
  | ret (a : α)
  | undefined
  deriving DecidableEq

/-- Model of `strchr(p, c)` on a NUL-terminated string without its terminator:
the offset of the first `c`, `none` for `NULL`. -/
def strchr : List Char → Char → Option Nat
  | [], _ => none
  | x :: xs, c => if x = c then some 0 else (strchr xs c).map (· + 1)

/-- The `while (q)` loop of `lookup_path`: `some (dir, p)` when the loop ends
with `q == NULL`, `none` when a lookup fails inside the loop. -/
def lookup_path_loop (L : Ext2Lib) (fs : List Ext2Call) (dir : Nat) (p : List Char) :
    Option (Nat × List Char) × List Ext2Call :=
  match h : strchr p '/' with
  | some q =>
    match L.lookup fs dir (p.take q) with
    | none => (none, Ext2Call.ext2fs_lookup dir (p.take q) :: fs)
    | some subdir =>
      lookup_path_loop L (Ext2Call.ext2fs_lookup dir (p.take q) :: fs) subdir (p.drop (q + 1))
  | none => (some (dir, p), fs)
termination_by p.length
decreasing_by
  have hlt : ∀ (l : List Char) (k : Nat), strchr l '/' = some k → k < l.length := by
    intro l
    induction l with
    | nil => intro k hk; simp [strchr] at hk
    | cons x xs ih =>
      intro k hk
      simp only [strchr] at hk
      split at hk
      · cases hk; simp
      · cases hx : strchr xs '/' with
        | none => simp [hx] at hk
        | some r =>
          simp [hx] at hk
          have := ih r hx
          simp only [List.length_cons]
          omega
  have hq := hlt p q h
  simp only [List.length_drop]
  omega

/-- Model of `lookup_path`: `some inum` when it returns `true`. -/
def lookup_path (L : Ext2Lib) (priv : gzfs_priv) (pathname : List Char) :
    Option Nat × gzfs_priv :=
  if pathname = [] then (some EXT2_ROOT_INO, priv)
  else
    match mapFind priv.path_cache pathname with
    | some inum => (some inum, priv)
    | none =>
      match lookup_path_loop L priv.fs EXT2_ROOT_INO pathname with
      | (none, fs1) => (none, { priv with fs := fs1 })
      | (some (dir, p), fs1) =>
        match L.lookup fs1 dir p with
        | none => (none, { priv with fs := Ext2Call.ext2fs_lookup dir p :: fs1 })
        | some inum =>
          (some inum,
            { priv with
              fs := Ext2Call.ext2fs_lookup dir p :: fs1
              path_cache := mapAssign priv.path_cache pathname inum })

/-- Model of the callback `dir_iterator`: append the entry name, return `0`. -/
def dir_iterator (filenames : List (List Char)) (name : List Char) :
    Int × List (List Char) :=
  (0, filenames ++ [name])

/-- Model of `ext2fs_dir_iterate(fs, dir, 0, NULL, func, priv_data)`: the
callback is run on every entry the library reports.  (A callback can stop the
iteration through its return value; the only callback of this program always
returns `0`, so that is not represented.) -/
def ext2fs_dir_iterate {α : Type} (L : Ext2Lib) (fs : List Ext2Call) (dir : Nat)
    (func : α → List Char → Int × α) (priv_data : α) : Bool × α × List Ext2Call :=
  ((L.dir_iterate fs dir).2,
   (L.dir_iterate fs dir).1.foldl (fun a n => (func a n).2) priv_data,
   Ext2Call.ext2fs_dir_iterate dir :: fs)

/-- Model of `lookup_dir`: the returned flag, the contents of `filenames`
afterwards, and the new state. -/
def lookup_dir (L : Ext2Lib) (priv : gzfs_priv) (inum : Nat) (filenames : List (List Char)) :
    Bool × List (List Char) × gzfs_priv :=
  match mapFind priv.dir_cache inum with
  | some cached => (true, cached, priv)
  | none =>
    match ext2fs_dir_iterate L priv.fs inum dir_iterator filenames with
    | (false, filenames1, fs1) => (false, filenames1, { priv with fs := fs1 })
    | (true, filenames1, fs1) =>
      (true, filenames1,
        { priv with fs := fs1, dir_cache := mapAssign priv.dir_cache inum filenames1 })

/-- The `for` loop of `gzfs_readdir`: hand each name to `filler` until it
returns nonzero. -/
def gzfs_readdir_loop {β : Type} (filler : β → List Char → Int × β) :
    List (List Char) → β → β
  | [], buf => buf
  | name :: rest, buf =>
    if (filler buf name).1 ≠ 0 then (filler buf name).2
    else gzfs_readdir_loop filler rest (filler buf name).2

/-- Model of `gzfs_readdir`.  `buf` is whatever the host's `filler` maintains. -/
def gzfs_readdir {β : Type} (L : Ext2Lib) (priv : gzfs_priv) (path : List Char)
    (buf : β) (filler : β → List Char → Int × β) : Int × β × gzfs_priv :=
  match path with
  | '/' :: rest =>
    match lookup_path L priv rest with
    | (none, priv1) => (-1, buf, priv1)
    | (some inum, priv1) =>
      match lookup_dir L priv1 inum [] with
      | (false, _, priv2) => (-1, buf, priv2)
      | (true, filenames, priv2) => (0, gzfs_readdir_loop filler filenames buf, priv2)
  | _ => (-1, buf, priv)

/-- Model of `gzfs_open`: the return code, the handle stored in `ffi->fh`, and
the new state. -/
def gzfs_open (L : Ext2Lib) (priv : gzfs_priv) (path : List Char) :
    Int × Option Nat × gzfs_priv :=
  match path with
  | '/' :: rest =>
    match lookup_path L priv rest with
    | (none, priv1) => (-1, none, priv1)
    | (some inum, priv1) =>
      match L.file_open priv1.fs inum with
      | none => (-1, none, { priv1 with fs := Ext2Call.ext2fs_file_open inum :: priv1.fs })
      | some file =>
        (0, some file,
          { priv1 with
            fs := Ext2Call.ext2fs_file_open inum :: priv1.fs
            file_table := mapAssign priv1.file_table file file_state.mk })
  | _ => (-1, none, priv)

/-- Model of `gzfs_read`: the return value, the bytes stored in `buf`, and the
new state.  `priv->file_table.find(file)->second` is evaluated without a test
against `end()`; for a handle that is not in the table this is undefined. -/
def gzfs_read (L : Ext2Lib) (priv : gzfs_priv) (fh : Nat) (size : Nat) (off : Int) :
    Outcome (Int × List Byte × gzfs_priv) :=
  match mapFind priv.file_table fh with
  | none => Outcome.undefined
  | some _ =>
    let fs1 := Ext2Call.ext2fs_file_llseek fh off :: priv.fs
    if L.file_llseek priv.fs fh off = false then Outcome.ret (-1, [], { priv with fs := fs1 })
    else
      let fs2 := Ext2Call.ext2fs_file_read fh size :: fs1
      match L.file_read fs1 fh size with
      | none => Outcome.ret (-1, [], { priv with fs := fs2 })
      | some data => Outcome.ret ((data.length : Int), data, { priv with fs := fs2 })

/-- Model of `gzfs_release`; the iterator returned by `find` is dereferenced
and erased without a test against `end()`. -/
def gzfs_release (priv : gzfs_priv) (fh : Nat) : Outcome (Int × gzfs_priv) :=
  match mapFind priv.file_table fh with
  | none => Outcome.undefined
  | some _ =>
    Outcome.ret (0,
      { priv with
        file_table := mapErase priv.file_table fh
        fs := Ext2Call.ext2fs_file_close fh :: priv.fs })

/-- The state built by `gzfs_init`: empty caches and file table, no library
call made yet through the caches. -/
def gzfs_init : gzfs_priv :=
  { fs := [], path_cache := [], dir_cache := [], file_table := [] }

/-- The number written by a string of decimal digits. -/
def decimal_value (ds : List Char) : Nat :=
  ds.foldl (fun n c => n * 10 + (c.toNat - 48)) 0

/-- An instance of the error codes, for concrete runs. -/
def ext2Err : Ext2Err := ⟨2133571398, by decide⟩

/-- A small library for concrete runs: `/a` is inode 11, `/a/b` is inode 12, a
directory with the entries `x`, `y`, `z` that can also be opened as file
context 5; every seek succeeds and every read returns two bytes. -/
def sampleLib : Ext2Lib :=
  { lookup := fun _ dir name =>
      if dir = 2 ∧ name = ['a'] then some 11
      else if dir = 11 ∧ name = ['b'] then some 12 else none
    dir_iterate := fun _ dir =>
      if dir = 12 then ([['x'], ['y'], ['z']], true) else ([], false)
    file_open := fun _ ino => if ino = 12 then some 5 else none
    file_llseek := fun _ _ _ => true
    file_read := fun _ _ _ => some [1, 2] }

/-! ## Runs of the block store -/

/-- States of the block store reachable from `gzio_open` through the functions
of `gzextio.cxx` that touch the private data. -/
inductive Reachable (P : GzParams) (S : GzStream) : gzio_priv → Prop where
  | gzio_open : Reachable P S (gzio_open P)
  | fetch_block (priv : gzio_priv) (block : Nat) :
      Reachable P S priv → Reachable P S (fetch_block P S priv block).2
  | gzio_do_read (priv : gzio_priv) (off len : Nat) (r : Int × List Byte × gzio_priv) :
      Reachable P S priv → gzio_do_read P S priv off len = some r → Reachable P S r.2.2
  | gzio_set_option (priv : gzio_priv) (v : Nat) :
      Reachable P S priv → Reachable P S { priv with offset := v }

/-- The state after fetching the blocks of the list, one after the other. -/
def fetch_seq (P : GzParams) (S : GzStream) : gzio_priv → List Nat → gzio_priv
  | priv, [] => priv
  | priv, b :: bs => fetch_seq P S (fetch_block P S priv b).2 bs

/-- A fetch of `block` in state `priv` is a successful miss: the block is not
resident and `fetch_block` returns a pointer. -/
def installs (P : GzParams) (S : GzStream) (priv : gzio_priv) (block : Nat) : Bool :=
  (mapFind priv.cache block).isNone && (fetch_block P S priv block).1.isSome

/-- The blocks installed by the successful misses of a run, oldest first. -/
def fetch_installed (P : GzParams) (S : GzStream) : gzio_priv → List Nat → List Nat
  | _, [] => []
  | priv, b :: bs =>
    (if installs P S priv b then [b] else []) ++
      fetch_installed P S (fetch_block P S priv b).2 bs

/-- The state after a run of fetches on a freshly opened store. -/
def fetch_run (P : GzParams) (S : GzStream) (bs : List Nat) : gzio_priv :=
  fetch_seq P S (gzio_open P) bs

/-- The blocks installed during a run of fetches on a freshly opened store,
oldest first. -/
def fetch_run_installed (P : GzParams) (S : GzStream) (bs : List Nat) : List Nat :=
  fetch_installed P S (gzio_open P) bs

/-- The relation between a state and the list `ins` of all blocks installed so
far (oldest first): the ring holds the last `GZ_CACHE_SIZE` of them at their
slots, the cursor is the count modulo the capacity, and the resident blocks
are exactly those last installs, each once. -/
structure FifoInv (P : GzParams) (priv : gzio_priv) (ins : List Nat) : Prop where
  hist_len : priv.history.length = P.GZ_CACHE_SIZE
  index_eq : priv.index = ins.length % P.GZ_CACHE_SIZE
  window_nodup : (ins.drop (ins.length - P.GZ_CACHE_SIZE)).Nodup
  keys_perm : (mapKeys priv.cache).Perm (ins.drop (ins.length - P.GZ_CACHE_SIZE))
  hist : ∀ m, m < ins.length → ins.length ≤ m + P.GZ_CACHE_SIZE →
    priv.history[m % P.GZ_CACHE_SIZE]? = ins[m]?

/-- Every resident block was obtained from the stream: the seek to its position
succeeds and the block holds the bytes the stream delivers there, a full block
of them. -/
def CacheOk (P : GzParams) (S : GzStream) (priv : gzio_priv) : Prop :=
  ∀ k d, mapFind priv.cache k = some d →
    gzseek S ((k * P.GZ_CACHE_BLOCKSIZE) % 2 ^ 64) = true ∧
    d = gzread S ((k * P.GZ_CACHE_BLOCKSIZE) % 2 ^ 64) P.GZ_CACHE_BLOCKSIZE ∧
    d.length = P.GZ_CACHE_BLOCKSIZE

/-! ## Lemmas on `std::map` -/

section StdMapLemmas
variable {κ ν : Type} [DecidableEq κ]

theorem mapFind_eq_none_iff (m : StdMap κ ν) (k : κ) :
    mapFind m k = none ↔ k ∉ mapKeys m := by
  induction m with
  | nil => simp [mapFind, mapKeys]
  | cons e rest ih =>
    obtain ⟨k', v⟩ := e
    by_cases h : k' = k
    · simp [mapFind, mapKeys, h]
    · have h' : ¬ k = k' := fun hh => h hh.symm
      simp only [mapFind, h, if_false, ih]
      simp [mapKeys, h']

theorem mapErase_of_not_mem (m : StdMap κ ν) (k : κ) (h : k ∉ mapKeys m) :
    mapErase m k = m := by
  induction m with
  | nil => rfl
  | cons e rest ih =>
    obtain ⟨k0, v⟩ := e
    simp only [mapKeys, List.map_cons, List.mem_cons, not_or] at h
    have h0 : ¬ k0 = k := fun hh => h.1 hh.symm
    simp only [mapErase, h0, if_false]
    rw [ih h.2]

theorem mapKeys_erase_subset (m : StdMap κ ν) (k x : κ) (hx : x ∈ mapKeys (mapErase m k)) :
    x ∈ mapKeys m ∧ x ≠ k := by
  induction m with
  | nil => simp [mapErase, mapKeys] at hx
  | cons e rest ih =>
    obtain ⟨k0, v⟩ := e
    by_cases h0 : k0 = k
    · simp only [mapErase, h0, if_true] at hx
      have := ih hx
      exact ⟨by simp only [mapKeys, List.map_cons, List.mem_cons]; exact Or.inr this.1, this.2⟩
    · simp only [mapErase, h0, if_false, mapKeys, List.map_cons, List.mem_cons] at hx
      rcases hx with hx | hx
      · subst hx
        exact ⟨by simp [mapKeys], h0⟩
      · have := ih hx
        exact ⟨by simp only [mapKeys, List.map_cons, List.mem_cons]; exact Or.inr this.1, this.2⟩

theorem mapFind_erase_self (m : StdMap κ ν) (k : κ) : mapFind (mapErase m k) k = none := by
  rw [mapFind_eq_none_iff]
  intro h
  exact (mapKeys_erase_subset m k k h).2 rfl

theorem mapFind_erase_ne (m : StdMap κ ν) {k k' : κ} (h : k' ≠ k) :
    mapFind (mapErase m k) k' = mapFind m k' := by
  induction m with
  | nil => rfl
  | cons e rest ih =>
    obtain ⟨k0, v⟩ := e
    by_cases h0 : k0 = k
    · have h1 : ¬ k0 = k' := by rw [h0]; exact fun hh => h hh.symm
      simp only [mapErase, h0, if_true, mapFind]
      rw [ih]
      have h2 : ¬ k = k' := fun hh => h hh.symm
      simp [h2]
    · simp only [mapErase, h0, if_false, mapFind, ih]

theorem mapFind_assign_self (m : StdMap κ ν) (k : κ) (v : ν) :
    mapFind (mapAssign m k v) k = some v := by
  simp [mapAssign, mapFind]

theorem mapFind_assign_ne (m : StdMap κ ν) {k k' : κ} (v : ν) (h : k' ≠ k) :
    mapFind (mapAssign m k v) k' = mapFind m k' := by
  have : ¬ k = k' := fun hh => h hh.symm
  simp [mapAssign, mapFind, this, mapFind_erase_ne m h]

theorem mapKeys_erase (m : StdMap κ ν) (k : κ) (hnd : (mapKeys m).Nodup) :
    mapKeys (mapErase m k) = (mapKeys m).erase k := by
  induction m with
  | nil => rfl
  | cons e rest ih =>
    obtain ⟨k0, v⟩ := e
    simp only [mapKeys, List.map_cons, List.nodup_cons] at hnd
    by_cases h0 : k0 = k
    · subst h0
      simp only [mapErase, if_true, mapKeys, List.map_cons, List.erase_cons_head]
      rw [mapErase_of_not_mem rest k0 hnd.1]
    · simp only [mapErase, h0, if_false, mapKeys, List.map_cons]
      rw [List.erase_cons_tail (by simpa using h0)]
      congr 1
      exact ih hnd.2

theorem mapKeys_assign_of_not_mem (m : StdMap κ ν) (k : κ) (v : ν) (h : k ∉ mapKeys m) :
    mapKeys (mapAssign m k v) = k :: mapKeys m := by
  simp [mapAssign, mapKeys, mapErase_of_not_mem m k h]

theorem mapSize_eq_length_keys {κ ν : Type} (m : StdMap κ ν) :
    mapSize m = (mapKeys m).length := by
  simp [mapSize, mapKeys]

end StdMapLemmas

/-! ## `fetch_block`, case by case -/

theorem fetch_block_hit (P : GzParams) (S : GzStream) (priv : gzio_priv) (block : Nat)
    (d : List Byte) (h : mapFind priv.cache block = some d) :
    fetch_block P S priv block = (some d, priv) := by
  simp [fetch_block, h]

theorem fetch_block_seek_fail (P : GzParams) (S : GzStream) (priv : gzio_priv) (block : Nat)
    (h : mapFind priv.cache block = none)
    (hs : gzseek S ((block * P.GZ_CACHE_BLOCKSIZE) % 2 ^ 64) = false) :
    fetch_block P S priv block =
      (none, { priv with
        file := GzCall.gzseek ((block * P.GZ_CACHE_BLOCKSIZE) % 2 ^ 64) :: priv.file }) := by
  simp [fetch_block, h, hs, -Nat.reducePow]

theorem fetch_block_short (P : GzParams) (S : GzStream) (priv : gzio_priv) (block : Nat)
    (h : mapFind priv.cache block = none)
    (hs : gzseek S ((block * P.GZ_CACHE_BLOCKSIZE) % 2 ^ 64) = true)
    (hr : (gzread S ((block * P.GZ_CACHE_BLOCKSIZE) % 2 ^ 64) P.GZ_CACHE_BLOCKSIZE).length
      ≠ P.GZ_CACHE_BLOCKSIZE) :
    fetch_block P S priv block =
      (none, { priv with
        file := GzCall.gzread P.GZ_CACHE_BLOCKSIZE ::
          GzCall.gzseek ((block * P.GZ_CACHE_BLOCKSIZE) % 2 ^ 64) :: priv.file }) := by
  simp [fetch_block, h, hs, hr, -Nat.reducePow]

theorem fetch_block_install (P : GzParams) (S : GzStream) (priv : gzio_priv) (block : Nat)
    (h : mapFind priv.cache block = none)
    (hs : gzseek S ((block * P.GZ_CACHE_BLOCKSIZE) % 2 ^ 64) = true)
    (hr : (gzread S ((block * P.GZ_CACHE_BLOCKSIZE) % 2 ^ 64) P.GZ_CACHE_BLOCKSIZE).length
      = P.GZ_CACHE_BLOCKSIZE) :
    fetch_block P S priv block =
      (some (gzread S ((block * P.GZ_CACHE_BLOCKSIZE) % 2 ^ 64) P.GZ_CACHE_BLOCKSIZE),
       { offset := priv.offset
         file := GzCall.gzread P.GZ_CACHE_BLOCKSIZE ::
           GzCall.gzseek ((block * P.GZ_CACHE_BLOCKSIZE) % 2 ^ 64) :: priv.file
         cache := mapAssign
           (if mapSize priv.cache = P.GZ_CACHE_SIZE then
              mapErase priv.cache (priv.history.getD priv.index 0)
            else priv.cache) block
           (gzread S ((block * P.GZ_CACHE_BLOCKSIZE) % 2 ^ 64) P.GZ_CACHE_BLOCKSIZE)
         index := (priv.index + 1) % P.GZ_CACHE_SIZE
         history := priv.history.set priv.index block }) := by
  simp [fetch_block, h, hs, hr, -Nat.reducePow]

/-- The three ways a call of `fetch_block` can go. -/
theorem fetch_block_cases (P : GzParams) (S : GzStream) (priv : gzio_priv) (block : Nat) :
    (∃ d, mapFind priv.cache block = some d ∧ fetch_block P S priv block = (some d, priv)) ∨
    (mapFind priv.cache block = none ∧ (fetch_block P S priv block).1 = none ∧
      (fetch_block P S priv block).2.cache = priv.cache ∧
      (fetch_block P S priv block).2.index = priv.index ∧
      (fetch_block P S priv block).2.history = priv.history ∧
      (fetch_block P S priv block).2.offset = priv.offset) ∨
    (mapFind priv.cache block = none ∧
      gzseek S ((block * P.GZ_CACHE_BLOCKSIZE) % 2 ^ 64) = true ∧
      (gzread S ((block * P.GZ_CACHE_BLOCKSIZE) % 2 ^ 64) P.GZ_CACHE_BLOCKSIZE).length
        = P.GZ_CACHE_BLOCKSIZE ∧
      (fetch_block P S priv block).1 =
        some (gzread S ((block * P.GZ_CACHE_BLOCKSIZE) % 2 ^ 64) P.GZ_CACHE_BLOCKSIZE)) := by
  cases h : mapFind priv.cache block with
  | some d => exact Or.inl ⟨d, rfl, fetch_block_hit P S priv block d h⟩
  | none =>
    right
    cases hs : gzseek S ((block * P.GZ_CACHE_BLOCKSIZE) % 2 ^ 64) with
    | false =>
      left
      rw [fetch_block_seek_fail P S priv block h hs]
      simp
    | true =>
      by_cases hr : (gzread S ((block * P.GZ_CACHE_BLOCKSIZE) % 2 ^ 64)
          P.GZ_CACHE_BLOCKSIZE).length = P.GZ_CACHE_BLOCKSIZE
      · right
        rw [fetch_block_install P S priv block h hs hr]
        exact ⟨rfl, rfl, hr, rfl⟩
      · left
        rw [fetch_block_short P S priv block h hs hr]
        simp

/-! ## The FIFO invariant -/

theorem FifoInv.of_eq {P : GzParams} {priv priv' : gzio_priv} {ins : List Nat}
    (h : FifoInv P priv ins) (hc : priv'.cache = priv.cache) (hi : priv'.index = priv.index)
    (hh : priv'.history = priv.history) : FifoInv P priv' ins :=
  ⟨by rw [hh]; exact h.hist_len, by rw [hi]; exact h.index_eq, h.window_nodup,
   by rw [hc]; exact h.keys_perm, by rw [hh]; exact h.hist⟩

theorem FifoInv.at_open (P : GzParams) : FifoInv P (gzio_open P) [] :=
  ⟨by simp [gzio_open], by simp [gzio_open], by simp,
   by simp [gzio_open, mapKeys], by intro m hm; simp at hm⟩

theorem FifoInv.size_le {P : GzParams} {priv : gzio_priv} {ins : List Nat}
    (h : FifoInv P priv ins) : mapSize priv.cache ≤ P.GZ_CACHE_SIZE := by
  rw [mapSize_eq_length_keys, h.keys_perm.length_eq, List.length_drop]
  omega

/-- When the cache is full the ring slot under the cursor holds the block
installed `GZ_CACHE_SIZE` installs ago, which heads the window of resident
blocks. -/
theorem FifoInv.evict_target {P : GzParams} {priv : gzio_priv} {ins : List Nat}
    (h : FifoInv P priv ins) (hC : 0 < P.GZ_CACHE_SIZE)
    (hfull : mapSize priv.cache = P.GZ_CACHE_SIZE) :
    P.GZ_CACHE_SIZE ≤ ins.length ∧
    ins[ins.length - P.GZ_CACHE_SIZE]? = some (priv.history.getD priv.index 0) ∧
    ins.drop (ins.length - P.GZ_CACHE_SIZE) =
      priv.history.getD priv.index 0 :: ins.drop (ins.length + 1 - P.GZ_CACHE_SIZE) := by
  have hlen : P.GZ_CACHE_SIZE ≤ ins.length := by
    have := h.keys_perm.length_eq
    rw [← mapSize_eq_length_keys, hfull, List.length_drop] at this
    omega
  have hm : ins.length - P.GZ_CACHE_SIZE < ins.length := by omega
  have hmod : (ins.length - P.GZ_CACHE_SIZE) % P.GZ_CACHE_SIZE
      = ins.length % P.GZ_CACHE_SIZE := by
    conv_rhs => rw [← Nat.sub_add_cancel hlen]
    rw [Nat.add_mod_right]
  have hh := h.hist (ins.length - P.GZ_CACHE_SIZE) hm (by omega)
  rw [hmod, ← h.index_eq, List.getElem?_eq_getElem hm] at hh
  have hget : priv.history.getD priv.index 0 = ins[ins.length - P.GZ_CACHE_SIZE] := by
    rw [List.getD_eq_getElem?_getD, hh]; rfl
  refine ⟨hlen, ?_, ?_⟩
  · rw [hget, List.getElem?_eq_getElem hm]
  · rw [hget, List.drop_eq_getElem_cons hm]
    congr 2
    omega

/-- The cache the eviction step of `fetch_block` leaves: its keys are the
window of resident blocks without its oldest member when the cache was full,
the whole window otherwise. -/
theorem FifoInv.keys_after_evict {P : GzParams} {priv : gzio_priv} {ins : List Nat}
    (h : FifoInv P priv ins) (hC : 0 < P.GZ_CACHE_SIZE) :
    (mapKeys (if mapSize priv.cache = P.GZ_CACHE_SIZE then
        mapErase priv.cache (priv.history.getD priv.index 0) else priv.cache)).Perm
      (ins.drop (ins.length + 1 - P.GZ_CACHE_SIZE)) := by
  have hnd : (mapKeys priv.cache).Nodup := h.keys_perm.nodup_iff.mpr h.window_nodup
  by_cases hfull : mapSize priv.cache = P.GZ_CACHE_SIZE
  · obtain ⟨_, _, hdrop⟩ := h.evict_target hC hfull
    rw [if_pos hfull, mapKeys_erase _ _ hnd]
    have hp := h.keys_perm.erase (priv.history.getD priv.index 0)
    rw [hdrop, List.erase_cons_head] at hp
    exact hp
  · rw [if_neg hfull]
    have hlen := h.keys_perm.length_eq
    rw [← mapSize_eq_length_keys, List.length_drop] at hlen
    have h1 : ins.length - P.GZ_CACHE_SIZE = 0 := by omega
    have h2 : ins.length + 1 - P.GZ_CACHE_SIZE = 0 := by omega
    have hp := h.keys_perm
    rw [h1] at hp
    rw [h2]
    exact hp

theorem FifoInv.install {P : GzParams} {priv priv' : gzio_priv} {ins : List Nat}
    (h : FifoInv P priv ins) (hC : 0 < P.GZ_CACHE_SIZE) (b : Nat) (d : List Byte)
    (hb : mapFind priv.cache b = none)
    (hc : priv'.cache = mapAssign
      (if mapSize priv.cache = P.GZ_CACHE_SIZE then
        mapErase priv.cache (priv.history.getD priv.index 0) else priv.cache) b d)
    (hi : priv'.index = (priv.index + 1) % P.GZ_CACHE_SIZE)
    (hh : priv'.history = priv.history.set priv.index b) :
    FifoInv P priv' (ins ++ [b]) := by
  have hkeys := h.keys_after_evict hC
  have hbk : b ∉ mapKeys priv.cache := (mapFind_eq_none_iff _ _).mp hb
  have hb1 : b ∉ mapKeys (if mapSize priv.cache = P.GZ_CACHE_SIZE then
      mapErase priv.cache (priv.history.getD priv.index 0) else priv.cache) := by
    split
    · intro hx
      exact hbk (mapKeys_erase_subset _ _ _ hx).1
    · exact hbk
  have hwin : (ins ++ [b]).drop ((ins ++ [b]).length - P.GZ_CACHE_SIZE)
      = ins.drop (ins.length + 1 - P.GZ_CACHE_SIZE) ++ [b] := by
    rw [List.length_append, List.length_singleton]
    exact List.drop_append_of_le_length (by omega)
  have hsuffix : (ins.drop (ins.length + 1 - P.GZ_CACHE_SIZE)).Nodup := by
    have hsub : (ins.drop (ins.length + 1 - P.GZ_CACHE_SIZE)).Sublist
        (ins.drop (ins.length - P.GZ_CACHE_SIZE)) := by
      have hdd : List.drop (ins.length + 1 - P.GZ_CACHE_SIZE - (ins.length - P.GZ_CACHE_SIZE))
          (List.drop (ins.length - P.GZ_CACHE_SIZE) ins)
          = List.drop (ins.length + 1 - P.GZ_CACHE_SIZE) ins := by
        rw [List.drop_drop]
        congr 1
        omega
      rw [← hdd]
      exact List.drop_sublist _ _
    exact h.window_nodup.sublist hsub
  have hbw : b ∉ ins.drop (ins.length + 1 - P.GZ_CACHE_SIZE) :=
    fun hx => hb1 (hkeys.mem_iff.mpr hx)
  refine ⟨?_, ?_, ?_, ?_, ?_⟩
  · rw [hh, List.length_set]; exact h.hist_len
  · rw [hi, h.index_eq, List.length_append, List.length_singleton, Nat.mod_add_mod]
  · rw [hwin]
    exact List.Nodup.append hsuffix (List.nodup_singleton b) (by simpa using hbw)
  · rw [hc, mapKeys_assign_of_not_mem _ _ _ hb1, hwin]
    exact (List.Perm.cons b hkeys).trans (List.perm_append_singleton b _).symm
  · intro m hm hm2
    rw [List.length_append, List.length_singleton] at hm hm2
    rw [hh, h.index_eq]
    by_cases hmn : m = ins.length
    · subst hmn
      rw [List.getElem?_set_self (by rw [h.hist_len]; exact Nat.mod_lt _ hC)]
      simp
    · have hlt : m < ins.length := by omega
      have hne : ins.length % P.GZ_CACHE_SIZE ≠ m % P.GZ_CACHE_SIZE := by
        intro heq
        have hd : (ins.length - m) % P.GZ_CACHE_SIZE = 0 :=
          Nat.sub_mod_eq_zero_of_mod_eq heq
        have hdvd := Nat.dvd_of_mod_eq_zero hd
        have := Nat.le_of_dvd (by omega) hdvd
        omega
      rw [List.getElem?_set_ne hne, h.hist m hlt (by omega), List.getElem?_append_left hlt]

/-- One call of `fetch_block` keeps the FIFO relation, the list of installs
growing by the fetched block exactly when the call is a successful miss. -/
theorem FifoInv.after_fetch {P : GzParams} (S : GzStream) {priv : gzio_priv} {ins : List Nat}
    (h : FifoInv P priv ins) (hC : 0 < P.GZ_CACHE_SIZE) (b : Nat) :
    FifoInv P (fetch_block P S priv b).2
      (ins ++ (if installs P S priv b then [b] else [])) := by
  rcases fetch_block_cases P S priv b with ⟨d, hd, heq⟩ | ⟨hn, hr, hc, hi, hh, _⟩ | ⟨hn, hs, hr, _⟩
  · have : installs P S priv b = false := by simp [installs, hd]
    rw [this, heq]
    simpa using h
  · have : installs P S priv b = false := by simp [installs, hr]
    rw [this]
    simpa using h.of_eq hc hi hh
  · have hinst := fetch_block_install P S priv b hn hs hr
    have : installs P S priv b = true := by simp [installs, hn, hinst]
    rw [this, hinst]
    exact h.install hC b _ hn rfl rfl rfl

theorem FifoInv.after_fetch_seq {P : GzParams} (S : GzStream) (hC : 0 < P.GZ_CACHE_SIZE)
    (bs : List Nat) : ∀ {priv : gzio_priv} {ins : List Nat}, FifoInv P priv ins →
    FifoInv P (fetch_seq P S priv bs) (ins ++ fetch_installed P S priv bs) := by
  induction bs with
  | nil => intro priv ins h; simpa [fetch_seq, fetch_installed] using h
  | cons b bs ih =>
    intro priv ins h
    have h1 := ih (h.after_fetch S hC b)
    simpa [fetch_seq, fetch_installed, List.append_assoc] using h1

/-- Whatever `fetch_block` preserves, the loop of `gzio_do_read` preserves. -/
theorem gzio_do_read_loop_preserves (P : GzParams) (S : GzStream) (Q : gzio_priv → Prop)
    (hQ : ∀ priv b, Q priv → Q (fetch_block P S priv b).2) :
    ∀ (fuel : Nat) (priv : gzio_priv) (buf : List Byte) (off len : Nat)
      (r : Int × List Byte × gzio_priv),
      Q priv → gzio_do_read_loop P S fuel priv buf off len = some r → Q r.2.2 := by
  intro fuel
  induction fuel with
  | zero =>
    intro priv buf off len r hq hr
    rw [gzio_do_read_loop] at hr
    split at hr
    · cases hr; exact hq
    · cases hr
  | succ fuel ih =>
    intro priv buf off len r hq hr
    rw [gzio_do_read_loop] at hr
    split at hr
    · cases hr; exact hq
    · have hq1 := hQ priv (off / P.GZ_CACHE_BLOCKSIZE) hq
      simp only at hr
      split at hr
      · rename_i priv1 heq
        cases hr
        rw [heq] at hq1
        exact hq1
      · rename_i data priv1 heq
        rw [heq] at hq1
        exact ih _ _ _ _ _ hq1 hr

theorem gzio_do_read_preserves (P : GzParams) (S : GzStream) (Q : gzio_priv → Prop)
    (hQ : ∀ priv b, Q priv → Q (fetch_block P S priv b).2)
    (priv : gzio_priv) (off len : Nat) (r : Int × List Byte × gzio_priv)
    (hq : Q priv) (hr : gzio_do_read P S priv off len = some r) : Q r.2.2 :=
  gzio_do_read_loop_preserves P S Q hQ len priv [] off len r hq hr

/-- Every reachable state stands in the FIFO relation to some list of
installs. -/
theorem Reachable.fifo {P : GzParams} {S : GzStream} (hC : 0 < P.GZ_CACHE_SIZE)
    {priv : gzio_priv} (h : Reachable P S priv) : ∃ ins, FifoInv P priv ins := by
  induction h with
  | gzio_open => exact ⟨[], FifoInv.at_open P⟩
  | fetch_block priv block _ ih =>
    obtain ⟨ins, hi⟩ := ih
    exact ⟨_, hi.after_fetch S hC block⟩
  | gzio_do_read priv off len r _ hr ih =>
    exact gzio_do_read_preserves P S (fun p => ∃ ins, FifoInv P p ins)
      (fun p b ⟨ins, hi⟩ => ⟨_, hi.after_fetch S hC b⟩) priv off len r ih hr
  | gzio_set_option priv v _ ih =>
    obtain ⟨ins, hi⟩ := ih
    exact ⟨ins, hi.of_eq rfl rfl rfl⟩

/-! ## Resident blocks hold stream data -/

theorem mapFind_erase_some {κ ν : Type} [DecidableEq κ] (m : StdMap κ ν) (e k : κ) (d : ν)
    (h : mapFind (mapErase m e) k = some d) : mapFind m k = some d := by
  by_cases hk : k = e
  · subst hk
    rw [mapFind_erase_self] at h
    cases h
  · rwa [mapFind_erase_ne m hk] at h

theorem CacheOk.ok_at_open (P : GzParams) (S : GzStream) : CacheOk P S (gzio_open P) := by
  intro k d h
  simp [gzio_open, mapFind] at h

theorem CacheOk.ok_after_fetch {P : GzParams} {S : GzStream} {priv : gzio_priv}
    (h : CacheOk P S priv) (b : Nat) : CacheOk P S (fetch_block P S priv b).2 := by
  rcases fetch_block_cases P S priv b with ⟨d, _, heq⟩ | ⟨_, _, hc, _, _, _⟩ | ⟨hn, hs, hr, _⟩
  · rw [heq]; exact h
  · intro k d hk
    rw [hc] at hk
    exact h k d hk
  · rw [fetch_block_install P S priv b hn hs hr]
    intro k d hk
    simp only at hk
    by_cases hkb : k = b
    · subst hkb
      rw [mapFind_assign_self] at hk
      cases hk
      exact ⟨hs, rfl, hr⟩
    · rw [mapFind_assign_ne _ _ hkb] at hk
      split at hk
      · exact h k d (mapFind_erase_some _ _ _ _ hk)
      · exact h k d hk

theorem CacheOk.ok_after_fetch_seq {P : GzParams} {S : GzStream} (bs : List Nat) :
    ∀ {priv : gzio_priv}, CacheOk P S priv → CacheOk P S (fetch_seq P S priv bs) := by
  induction bs with
  | nil => intro priv h; exact h
  | cons b bs ih => intro priv h; exact ih (h.ok_after_fetch b)

theorem Reachable.cacheOk {P : GzParams} {S : GzStream} {priv : gzio_priv}
    (h : Reachable P S priv) : CacheOk P S priv := by
  induction h with
  | gzio_open => exact CacheOk.ok_at_open P S
  | fetch_block priv block _ ih => exact ih.ok_after_fetch block
  | gzio_do_read priv off len r _ hr ih =>
    exact gzio_do_read_preserves P S (CacheOk P S) (fun p b hp => hp.ok_after_fetch b)
      priv off len r ih hr
  | gzio_set_option priv v _ ih => exact ih

theorem Reachable.after_run {P : GzParams} {S : GzStream} (bs : List Nat) :
    ∀ {priv : gzio_priv}, Reachable P S priv → Reachable P S (fetch_seq P S priv bs) := by
  induction bs with
  | nil => intro priv h; exact h
  | cons b bs ih => intro priv h; exact ih (Reachable.fetch_block priv b h)

theorem FifoInv.after_fetch_run (P : GzParams) (S : GzStream) (hC : 0 < P.GZ_CACHE_SIZE)
    (bs : List Nat) : FifoInv P (fetch_run P S bs) (fetch_run_installed P S bs) := by
  have h := (FifoInv.at_open P).after_fetch_seq S hC bs
  simpa [fetch_run, fetch_run_installed] using h

/-! ## Eviction order and capacity -/

/-- C2: strict FIFO eviction.  Take any run `bs` of block fetches on a freshly
opened store (hits, misses and failures in any order) that leaves the cache
full, and let the next fetch, of block `b`, be a successful miss.  Then there
is a block `e` such that: `e` is the block installed `GZ_CACHE_SIZE` successful
misses before this one (entry `length - GZ_CACHE_SIZE` of the list of installs
of the run); `e` was resident and is no longer; every block other than `e` and
`b` is resident after the fetch exactly as before; `b` is resident; and
fetching `e` next is a miss that seeks and reads the stream again. -/
theorem fetch_block_evicts_oldest_install (P : GzParams) (S : GzStream) (bs : List Nat)
    (b : Nat) (hC : 0 < P.GZ_CACHE_SIZE)
    (hfull : mapSize (fetch_run P S bs).cache = P.GZ_CACHE_SIZE)
    (hmiss : installs P S (fetch_run P S bs) b = true) :
    ∃ e,
      P.GZ_CACHE_SIZE ≤ (fetch_run_installed P S bs).length ∧
      (fetch_run_installed P S bs)[(fetch_run_installed P S bs).length - P.GZ_CACHE_SIZE]?
        = some e ∧
      (mapFind (fetch_run P S bs).cache e).isSome = true ∧
      mapFind (fetch_block P S (fetch_run P S bs) b).2.cache e = none ∧
      (∀ k, k ≠ e → k ≠ b →
        mapFind (fetch_block P S (fetch_run P S bs) b).2.cache k
          = mapFind (fetch_run P S bs).cache k) ∧
      (mapFind (fetch_block P S (fetch_run P S bs) b).2.cache b).isSome = true ∧
      (fetch_block P S (fetch_block P S (fetch_run P S bs) b).2 e).2.file =
        GzCall.gzread P.GZ_CACHE_BLOCKSIZE ::
          GzCall.gzseek ((e * P.GZ_CACHE_BLOCKSIZE) % 2 ^ 64) ::
            (fetch_block P S (fetch_run P S bs) b).2.file := by
  have hinv := FifoInv.after_fetch_run P S hC bs
  have hok : CacheOk P S (fetch_run P S bs) :=
    CacheOk.ok_after_fetch_seq bs (CacheOk.ok_at_open P S)
  obtain ⟨hlen, hget, hdrop⟩ := hinv.evict_target hC hfull
  refine ⟨(fetch_run P S bs).history.getD (fetch_run P S bs).index 0, hlen, hget, ?_⟩
  generalize (fetch_run P S bs).history.getD (fetch_run P S bs).index 0 = e at hget hdrop ⊢
  -- the fetch of `b` is an install
  have hbnone : mapFind (fetch_run P S bs).cache b = none := by
    simp only [installs, Bool.and_eq_true, Option.isNone_iff_eq_none] at hmiss
    exact hmiss.1
  have hbsome : (fetch_block P S (fetch_run P S bs) b).1.isSome = true := by
    simp only [installs, Bool.and_eq_true] at hmiss
    exact hmiss.2
  rcases fetch_block_cases P S (fetch_run P S bs) b with
    ⟨d, hd, _⟩ | ⟨_, hr, _⟩ | ⟨_, hs, hr, _⟩
  · rw [hbnone] at hd; cases hd
  · rw [hr] at hbsome; cases hbsome
  · -- `e` is resident and differs from `b`
    have hemem : e ∈ mapKeys (fetch_run P S bs).cache := by
      rw [hinv.keys_perm.mem_iff, hdrop]
      exact List.mem_cons_self _ _
    have hesome : (mapFind (fetch_run P S bs).cache e).isSome = true := by
      cases hf : mapFind (fetch_run P S bs).cache e with
      | none => exact absurd hemem ((mapFind_eq_none_iff _ _).mp hf)
      | some d => rfl
    have hbe : e ≠ b := by
      intro heq
      rw [heq, hbnone] at hesome
      cases hesome
    have hcache : (fetch_block P S (fetch_run P S bs) b).2.cache =
        mapAssign (mapErase (fetch_run P S bs).cache
          ((fetch_run P S bs).history.getD (fetch_run P S bs).index 0)) b
          (gzread S ((b * P.GZ_CACHE_BLOCKSIZE) % 2 ^ 64) P.GZ_CACHE_BLOCKSIZE) := by
      rw [fetch_block_install P S _ b hbnone hs hr]
      simp only [hfull, if_true]
    have hehist : (fetch_run P S bs).history.getD (fetch_run P S bs).index 0 = e := by
      have := (hinv.evict_target hC hfull).2.1
      rw [hget] at this
      exact (Option.some.inj this).symm
    rw [hehist] at hcache
    have henone : mapFind (fetch_block P S (fetch_run P S bs) b).2.cache e = none := by
      rw [hcache, mapFind_assign_ne _ _ hbe, mapFind_erase_self]
    refine ⟨hesome, henone, ?_, ?_, ?_⟩
    · intro k hke hkb
      rw [hcache, mapFind_assign_ne _ _ hkb, mapFind_erase_ne _ hke]
    · rw [hcache, mapFind_assign_self]; rfl
    · obtain ⟨d, hd⟩ := Option.isSome_iff_exists.mp hesome
      obtain ⟨hse, hde, hle⟩ := hok e d hd
      rw [hde] at hle
      rw [fetch_block_install P S _ e henone hse hle]

/-- Witness for C2 on a store of two slots and four-byte blocks: blocks 0 and 1
are installed, block 0 is hit twice, and the miss on block 2 evicts block 0. -/
theorem fetch_block_evicts_oldest_install_witness :
    ∃ e,
      (⟨4, 2⟩ : GzParams).GZ_CACHE_SIZE ≤
        (fetch_run_installed ⟨4, 2⟩ (imageStream (List.replicate 16 7)) [0, 1, 0, 0]).length ∧
      (fetch_run_installed ⟨4, 2⟩ (imageStream (List.replicate 16 7)) [0, 1, 0, 0])[
        (fetch_run_installed ⟨4, 2⟩ (imageStream (List.replicate 16 7)) [0, 1, 0, 0]).length
          - (⟨4, 2⟩ : GzParams).GZ_CACHE_SIZE]? = some e ∧
      (mapFind (fetch_run ⟨4, 2⟩ (imageStream (List.replicate 16 7)) [0, 1, 0, 0]).cache
        e).isSome = true ∧
      mapFind (fetch_block ⟨4, 2⟩ (imageStream (List.replicate 16 7))
        (fetch_run ⟨4, 2⟩ (imageStream (List.replicate 16 7)) [0, 1, 0, 0]) 2).2.cache e
        = none ∧
      (∀ k, k ≠ e → k ≠ 2 →
        mapFind (fetch_block ⟨4, 2⟩ (imageStream (List.replicate 16 7))
          (fetch_run ⟨4, 2⟩ (imageStream (List.replicate 16 7)) [0, 1, 0, 0]) 2).2.cache k
          = mapFind (fetch_run ⟨4, 2⟩ (imageStream (List.replicate 16 7)) [0, 1, 0, 0]).cache
              k) ∧
      (mapFind (fetch_block ⟨4, 2⟩ (imageStream (List.replicate 16 7))
        (fetch_run ⟨4, 2⟩ (imageStream (List.replicate 16 7)) [0, 1, 0, 0]) 2).2.cache
        2).isSome = true ∧
      (fetch_block ⟨4, 2⟩ (imageStream (List.replicate 16 7))
        (fetch_block ⟨4, 2⟩ (imageStream (List.replicate 16 7))
          (fetch_run ⟨4, 2⟩ (imageStream (List.replicate 16 7)) [0, 1, 0, 0]) 2).2 e).2.file =
        GzCall.gzread (⟨4, 2⟩ : GzParams).GZ_CACHE_BLOCKSIZE ::
          GzCall.gzseek ((e * (⟨4, 2⟩ : GzParams).GZ_CACHE_BLOCKSIZE) % 2 ^ 64) ::
            (fetch_block ⟨4, 2⟩ (imageStream (List.replicate 16 7))
              (fetch_run ⟨4, 2⟩ (imageStream (List.replicate 16 7)) [0, 1, 0, 0]) 2).2.file :=
  fetch_block_evicts_oldest_install ⟨4, 2⟩ (imageStream (List.replicate 16 7)) [0, 1, 0, 0] 2
    (by decide) (by decide) (by decide)

/-- C3: in every state reachable from `gzio_open` through `fetch_block`,
`gzio_do_read` (whatever they return) and `gzio_set_option`, the block cache
holds at most `GZ_CACHE_SIZE` entries. -/
theorem cache_size_le_capacity (P : GzParams) (S : GzStream) (priv : gzio_priv)
    (hC : 0 < P.GZ_CACHE_SIZE) (h : Reachable P S priv) :
    mapSize priv.cache ≤ P.GZ_CACHE_SIZE := by
  obtain ⟨ins, hi⟩ := h.fifo hC
  exact hi.size_le

/-- Witness for C3: three distinct blocks fetched on a store of two slots. -/
theorem cache_size_le_capacity_witness :
    mapSize (fetch_seq ⟨4, 2⟩ (imageStream (List.replicate 16 7)) (gzio_open ⟨4, 2⟩)
      [0, 1, 2]).cache ≤ (⟨4, 2⟩ : GzParams).GZ_CACHE_SIZE :=
  cache_size_le_capacity ⟨4, 2⟩ (imageStream (List.replicate 16 7)) _ (by decide)
    (Reachable.after_run [0, 1, 2] Reachable.gzio_open)

/-! ## Reads against an intact image -/

theorem gzread_imageStream (img : List Byte) (pos len : Nat) :
    gzread (imageStream img) pos len = (img.drop pos).take len := rfl

theorem gzio_do_read_loop_zero (P : GzParams) (S : GzStream) (fuel : Nat) (priv : gzio_priv)
    (buf : List Byte) (off : Nat) :
    gzio_do_read_loop P S fuel priv buf off 0 = some (0, buf, priv) := by
  cases fuel <;> simp [gzio_do_read_loop]

/-- The part of a block that `memcpy` copies, read off the image. -/
theorem take_drop_block (img : List Byte) (p c n B : Nat) (h : c + n ≤ B) :
    (((img.drop p).take B).drop c).take n = (img.drop (p + c)).take n := by
  rw [List.drop_take, List.take_take, List.drop_drop]
  congr 1
  omega

/-- On an intact image a fetch of a block lying wholly inside the image
returns the bytes of that block. -/
theorem fetch_block_image (P : GzParams) (img : List Byte) (priv : gzio_priv) (block : Nat)
    (hok : CacheOk P (imageStream img) priv)
    (hin : block * P.GZ_CACHE_BLOCKSIZE + P.GZ_CACHE_BLOCKSIZE ≤ img.length)
    (h64 : block * P.GZ_CACHE_BLOCKSIZE < 2 ^ 64) :
    (fetch_block P (imageStream img) priv block).1 =
      some ((img.drop (block * P.GZ_CACHE_BLOCKSIZE)).take P.GZ_CACHE_BLOCKSIZE) := by
  have hmod : (block * P.GZ_CACHE_BLOCKSIZE) % 2 ^ 64 = block * P.GZ_CACHE_BLOCKSIZE :=
    Nat.mod_eq_of_lt h64
  rcases fetch_block_cases P (imageStream img) priv block with
    ⟨d, hd, heq⟩ | ⟨hn, hnone, _⟩ | ⟨_, _, _, hres⟩
  · obtain ⟨_, hdd, _⟩ := hok block d hd
    rw [heq, hdd, hmod, gzread_imageStream]
  · exfalso
    have hs : gzseek (imageStream img) ((block * P.GZ_CACHE_BLOCKSIZE) % 2 ^ 64) = true := rfl
    have hr : (gzread (imageStream img) ((block * P.GZ_CACHE_BLOCKSIZE) % 2 ^ 64)
        P.GZ_CACHE_BLOCKSIZE).length = P.GZ_CACHE_BLOCKSIZE := by
      rw [hmod, gzread_imageStream, List.length_take, List.length_drop]
      omega
    rw [fetch_block_install P (imageStream img) priv block hn hs hr] at hnone
    cases hnone
  · rw [hres, hmod, gzread_imageStream]

/-- The loop of `gzio_do_read` on an intact image: a range that ends inside the
whole blocks of the image is delivered in full. -/
theorem gzio_do_read_loop_image (P : GzParams) (img : List Byte)
    (hB : 0 < P.GZ_CACHE_BLOCKSIZE) :
    ∀ (fuel : Nat) (priv : gzio_priv) (buf : List Byte) (off len : Nat),
      CacheOk P (imageStream img) priv → len ≤ fuel →
      off + len ≤ img.length / P.GZ_CACHE_BLOCKSIZE * P.GZ_CACHE_BLOCKSIZE →
      off + len ≤ 2 ^ 64 →
      ∃ priv', gzio_do_read_loop P (imageStream img) fuel priv buf off len
        = some (0, buf ++ (img.drop off).take len, priv') := by
  intro fuel
  induction fuel with
  | zero =>
    intro priv buf off len _ hfuel _ _
    have : len = 0 := by omega
    subst this
    exact ⟨priv, by simp [gzio_do_read_loop]⟩
  | succ fuel ih =>
    intro priv buf off len hok hfuel hin h64
    by_cases hl : len = 0
    · subst hl
      exact ⟨priv, by simp [gzio_do_read_loop]⟩
    · have hdm := Nat.div_mul_le_self off P.GZ_CACHE_BLOCKSIZE
      have hlt := Nat.lt_div_mul_add (a := off) hB
      have hfl := Nat.div_mul_le_self img.length P.GZ_CACHE_BLOCKSIZE
      have hblk : off / P.GZ_CACHE_BLOCKSIZE < img.length / P.GZ_CACHE_BLOCKSIZE := by
        rw [Nat.div_lt_iff_lt_mul hB]
        omega
      have hblk1 : off / P.GZ_CACHE_BLOCKSIZE * P.GZ_CACHE_BLOCKSIZE + P.GZ_CACHE_BLOCKSIZE
          ≤ img.length / P.GZ_CACHE_BLOCKSIZE * P.GZ_CACHE_BLOCKSIZE := by
        have := Nat.mul_le_mul_right P.GZ_CACHE_BLOCKSIZE (Nat.succ_le_of_lt hblk)
        rw [Nat.succ_mul] at this
        exact this
      have hfetch := fetch_block_image P img priv (off / P.GZ_CACHE_BLOCKSIZE) hok
        (by omega) (by omega)
      have hok1 := hok.ok_after_fetch (off / P.GZ_CACHE_BLOCKSIZE)
      rw [gzio_do_read_loop, if_neg hl]
      simp only
      generalize fetch_block P (imageStream img) priv (off / P.GZ_CACHE_BLOCKSIZE) = res
        at hfetch hok1
      obtain ⟨r1, priv1⟩ := res
      simp only at hfetch hok1
      subst hfetch
      simp only
      -- the bytes copied in this round
      have hcopy : ∀ n, (off - off / P.GZ_CACHE_BLOCKSIZE * P.GZ_CACHE_BLOCKSIZE) + n
          ≤ P.GZ_CACHE_BLOCKSIZE →
          List.take n (List.drop (off - off / P.GZ_CACHE_BLOCKSIZE * P.GZ_CACHE_BLOCKSIZE)
            (List.take P.GZ_CACHE_BLOCKSIZE
              (List.drop (off / P.GZ_CACHE_BLOCKSIZE * P.GZ_CACHE_BLOCKSIZE) img)))
          = List.take n (List.drop off img) := by
        intro n hn
        rw [take_drop_block img _ _ n P.GZ_CACHE_BLOCKSIZE hn]
        congr 2
        omega
      by_cases hc : P.GZ_CACHE_BLOCKSIZE
          - (off - off / P.GZ_CACHE_BLOCKSIZE * P.GZ_CACHE_BLOCKSIZE) > len
      · rw [if_pos hc, Nat.sub_self, gzio_do_read_loop_zero, hcopy len (by omega)]
        exact ⟨priv1, rfl⟩
      · rw [if_neg hc, hcopy _ (by omega)]
        by_cases hlast : P.GZ_CACHE_BLOCKSIZE
            - (off - off / P.GZ_CACHE_BLOCKSIZE * P.GZ_CACHE_BLOCKSIZE) = len
        · rw [hlast, Nat.sub_self, gzio_do_read_loop_zero]
          exact ⟨priv1, rfl⟩
        · have hmod : (off + (P.GZ_CACHE_BLOCKSIZE
              - (off - off / P.GZ_CACHE_BLOCKSIZE * P.GZ_CACHE_BLOCKSIZE))) % 2 ^ 64
              = off + (P.GZ_CACHE_BLOCKSIZE
              - (off - off / P.GZ_CACHE_BLOCKSIZE * P.GZ_CACHE_BLOCKSIZE)) :=
            Nat.mod_eq_of_lt (by omega)
          rw [hmod]
          obtain ⟨priv', hp⟩ := ih priv1
            (buf ++ List.take (P.GZ_CACHE_BLOCKSIZE
              - (off - off / P.GZ_CACHE_BLOCKSIZE * P.GZ_CACHE_BLOCKSIZE)) (List.drop off img))
            (off + (P.GZ_CACHE_BLOCKSIZE
              - (off - off / P.GZ_CACHE_BLOCKSIZE * P.GZ_CACHE_BLOCKSIZE)))
            (len - (P.GZ_CACHE_BLOCKSIZE
              - (off - off / P.GZ_CACHE_BLOCKSIZE * P.GZ_CACHE_BLOCKSIZE)))
            hok1 (by omega) (by omega) (by omega)
          refine ⟨priv', ?_⟩
          rw [hp, List.append_assoc]
          congr 3
          have hsplit : len = (P.GZ_CACHE_BLOCKSIZE
              - (off - off / P.GZ_CACHE_BLOCKSIZE * P.GZ_CACHE_BLOCKSIZE))
              + (len - (P.GZ_CACHE_BLOCKSIZE
              - (off - off / P.GZ_CACHE_BLOCKSIZE * P.GZ_CACHE_BLOCKSIZE))) := by omega
          conv_rhs => rw [hsplit, List.take_add, List.drop_drop]

/-- C1, as the code has it: on an intact image, in every reachable state, a
byte range that is empty or ends inside the whole blocks of the image
(`o + l ≤ ⌊size / GZ_CACHE_BLOCKSIZE⌋ * GZ_CACHE_BLOCKSIZE`, offsets being
64-bit) is read successfully and the buffer receives exactly the bytes
`o .. o+l-1` of the image. -/
theorem gzio_do_read_whole_blocks (P : GzParams) (img : List Byte) (priv : gzio_priv)
    (o l : Nat) (hB : 0 < P.GZ_CACHE_BLOCKSIZE)
    (hreach : Reachable P (imageStream img) priv)
    (hin : l = 0 ∨ o + l ≤ img.length / P.GZ_CACHE_BLOCKSIZE * P.GZ_CACHE_BLOCKSIZE)
    (h64 : o + l ≤ 2 ^ 64) :
    ∃ priv', gzio_do_read P (imageStream img) priv o l
      = some (0, (img.drop o).take l, priv') := by
  rcases hin with hl | hin
  · subst hl
    exact ⟨priv, by simp [gzio_do_read, gzio_do_read_loop]⟩
  · obtain ⟨priv', hp⟩ := gzio_do_read_loop_image P img hB l priv [] o l hreach.cacheOk
      (Nat.le_refl l) hin h64
    exact ⟨priv', by rw [gzio_do_read, hp, List.nil_append]⟩

/-- Witness for the amended C1: six bytes read across two blocks of a
nine-byte image, in a state where both blocks are already resident. -/
theorem gzio_do_read_whole_blocks_witness :
    ∃ priv', gzio_do_read ⟨4, 2⟩ (imageStream [1, 2, 3, 4, 5, 6, 7, 8, 9])
        (fetch_seq ⟨4, 2⟩ (imageStream [1, 2, 3, 4, 5, 6, 7, 8, 9]) (gzio_open ⟨4, 2⟩) [1, 0])
        1 6
      = some (0, (([1, 2, 3, 4, 5, 6, 7, 8, 9] : List Byte).drop 1).take 6, priv') :=
  gzio_do_read_whole_blocks ⟨4, 2⟩ [1, 2, 3, 4, 5, 6, 7, 8, 9] _ 1 6 (by decide)
    (Reachable.after_run [1, 0] Reachable.gzio_open) (Or.inr (by decide)) (by decide)

/-- Counterexample to C1 as stated, with the constants of the source: the
image holds one byte, the range `[0, 1)` is in bounds, and `gzio_do_read`
returns `-1` with nothing copied, because `gzread` delivers fewer than
`GZ_CACHE_BLOCKSIZE` bytes for block 0. -/
theorem gzio_do_read_partial_block_fails :
    0 + 1 ≤ ([7] : List Byte).length ∧
    Reachable gzParams (imageStream [7]) (gzio_open gzParams) ∧
    (gzio_do_read gzParams (imageStream [7]) (gzio_open gzParams) 0 1).map
      (fun r => (r.1, r.2.1)) = some (-1, []) :=
  ⟨by decide, Reachable.gzio_open, by decide⟩

/-! ## Stream failures -/

theorem fetch_block_stream_failure (P : GzParams) (S : GzStream) (priv : gzio_priv) (b : Nat)
    (hn : mapFind priv.cache b = none)
    (hfail : gzseek S ((b * P.GZ_CACHE_BLOCKSIZE) % 2 ^ 64) = false ∨
      (gzread S ((b * P.GZ_CACHE_BLOCKSIZE) % 2 ^ 64) P.GZ_CACHE_BLOCKSIZE).length
        ≠ P.GZ_CACHE_BLOCKSIZE) :
    (fetch_block P S priv b).1 = none ∧
    (fetch_block P S priv b).2.cache = priv.cache ∧
    (fetch_block P S priv b).2.history = priv.history ∧
    (fetch_block P S priv b).2.index = priv.index := by
  cases hs : gzseek S ((b * P.GZ_CACHE_BLOCKSIZE) % 2 ^ 64) with
  | false =>
    rw [fetch_block_seek_fail P S priv b hn hs]
    exact ⟨rfl, rfl, rfl, rfl⟩
  | true =>
    rcases hfail with hf | hf
    · rw [hs] at hf; cases hf
    · rw [fetch_block_short P S priv b hn hs hf]
      exact ⟨rfl, rfl, rfl, rfl⟩

/-- A fetch of another block does not make a block resident. -/
theorem fetch_block_other_absent (P : GzParams) (S : GzStream) (priv : gzio_priv)
    (b k : Nat) (hkb : k ≠ b) (hk : mapFind priv.cache k = none) :
    mapFind (fetch_block P S priv b).2.cache k = none := by
  rcases fetch_block_cases P S priv b with ⟨d, _, heq⟩ | ⟨_, _, hc, _⟩ | ⟨hn, hs, hr, _⟩
  · rw [heq]; exact hk
  · rw [hc]; exact hk
  · rw [fetch_block_install P S priv b hn hs hr]
    simp only
    rw [mapFind_assign_ne _ _ hkb]
    split
    · cases hf : mapFind (mapErase priv.cache (priv.history.getD priv.index 0)) k with
      | none => rfl
      | some d =>
        have := mapFind_erase_some _ _ _ _ hf
        rw [hk] at this
        cases this
    · exact hk

theorem gzio_do_read_loop_stream_failure (P : GzParams) (S : GzStream) (k : Nat)
    (hB : 0 < P.GZ_CACHE_BLOCKSIZE)
    (hfail : gzseek S ((k * P.GZ_CACHE_BLOCKSIZE) % 2 ^ 64) = false ∨
      (gzread S ((k * P.GZ_CACHE_BLOCKSIZE) % 2 ^ 64) P.GZ_CACHE_BLOCKSIZE).length
        ≠ P.GZ_CACHE_BLOCKSIZE) :
    ∀ (fuel : Nat) (priv : gzio_priv) (buf : List Byte) (off len : Nat),
      len ≤ fuel → 0 < len → off + len ≤ 2 ^ 64 →
      off / P.GZ_CACHE_BLOCKSIZE ≤ k → k * P.GZ_CACHE_BLOCKSIZE < off + len →
      mapFind priv.cache k = none →
      ∃ buf' priv', gzio_do_read_loop P S fuel priv buf off len = some (-1, buf', priv') := by
  intro fuel
  induction fuel with
  | zero => intro priv buf off len h1 h2; omega
  | succ fuel ih =>
    intro priv buf off len hfuel hlen h64 hk1 hk2 hnr
    have hl : ¬ len = 0 := by omega
    rw [gzio_do_read_loop, if_neg hl]
    simp only
    by_cases hkb : off / P.GZ_CACHE_BLOCKSIZE = k
    · have hf := (fetch_block_stream_failure P S priv k hnr hfail).1
      rw [hkb]
      generalize fetch_block P S priv k = res at hf
      obtain ⟨r1, priv1⟩ := res
      simp only at hf
      subst hf
      exact ⟨buf, priv1, rfl⟩
    · have hne : k ≠ off / P.GZ_CACHE_BLOCKSIZE := fun h => hkb h.symm
      have hnr1 := fetch_block_other_absent P S priv (off / P.GZ_CACHE_BLOCKSIZE) k hne hnr
      generalize fetch_block P S priv (off / P.GZ_CACHE_BLOCKSIZE) = res at hnr1
      obtain ⟨r1, priv1⟩ := res
      cases r1 with
      | none => exact ⟨buf, priv1, rfl⟩
      | some data =>
        simp only at hnr1 ⊢
        have hdm := Nat.div_mul_le_self off P.GZ_CACHE_BLOCKSIZE
        have hlt := Nat.lt_div_mul_add (a := off) hB
        have hnext : off / P.GZ_CACHE_BLOCKSIZE * P.GZ_CACHE_BLOCKSIZE + P.GZ_CACHE_BLOCKSIZE
            ≤ k * P.GZ_CACHE_BLOCKSIZE := by
          have hsucc : off / P.GZ_CACHE_BLOCKSIZE + 1 ≤ k := by omega
          have := Nat.mul_le_mul_right P.GZ_CACHE_BLOCKSIZE hsucc
          rw [Nat.succ_mul] at this
          exact this
        have hc : ¬ P.GZ_CACHE_BLOCKSIZE
            - (off - off / P.GZ_CACHE_BLOCKSIZE * P.GZ_CACHE_BLOCKSIZE) > len := by omega
        rw [if_neg hc]
        have hmod : (off + (P.GZ_CACHE_BLOCKSIZE
            - (off - off / P.GZ_CACHE_BLOCKSIZE * P.GZ_CACHE_BLOCKSIZE))) % 2 ^ 64
            = off + (P.GZ_CACHE_BLOCKSIZE
            - (off - off / P.GZ_CACHE_BLOCKSIZE * P.GZ_CACHE_BLOCKSIZE)) :=
          Nat.mod_eq_of_lt (by omega)
        rw [hmod]
        have hoff : off + (P.GZ_CACHE_BLOCKSIZE
            - (off - off / P.GZ_CACHE_BLOCKSIZE * P.GZ_CACHE_BLOCKSIZE))
            ≤ k * P.GZ_CACHE_BLOCKSIZE := by omega
        exact ih priv1 _ _ _ (by omega) (by omega) (by omega)
          (Nat.div_le_of_le_mul (Nat.mul_comm k _ ▸ hoff)) (by omega) hnr1

/-- C10: if a block `k` needed by the request `[off, off + len)` is not resident
and the stream fails for it (the seek fails, or fewer than
`GZ_CACHE_BLOCKSIZE` bytes are delivered), then `gzio_do_read` returns `-1`;
and a `fetch_block` that fails in this way, in any state `q`, returns `NULL`
and leaves the cache map, the history ring and the ring cursor as they
were. -/
theorem gzio_do_read_stream_failure (P : GzParams) (S : GzStream) (priv : gzio_priv)
    (off len k : Nat) (hB : 0 < P.GZ_CACHE_BLOCKSIZE) (hlen : 0 < len)
    (h64 : off + len ≤ 2 ^ 64)
    (hk1 : off / P.GZ_CACHE_BLOCKSIZE ≤ k) (hk2 : k * P.GZ_CACHE_BLOCKSIZE < off + len)
    (hnr : mapFind priv.cache k = none)
    (hfail : gzseek S ((k * P.GZ_CACHE_BLOCKSIZE) % 2 ^ 64) = false ∨
      (gzread S ((k * P.GZ_CACHE_BLOCKSIZE) % 2 ^ 64) P.GZ_CACHE_BLOCKSIZE).length
        ≠ P.GZ_CACHE_BLOCKSIZE) :
    (∃ buf priv', gzio_do_read P S priv off len = some (-1, buf, priv')) ∧
    (∀ (q : gzio_priv) (b : Nat), mapFind q.cache b = none →
      (gzseek S ((b * P.GZ_CACHE_BLOCKSIZE) % 2 ^ 64) = false ∨
        (gzread S ((b * P.GZ_CACHE_BLOCKSIZE) % 2 ^ 64) P.GZ_CACHE_BLOCKSIZE).length
          ≠ P.GZ_CACHE_BLOCKSIZE) →
      (fetch_block P S q b).1 = none ∧
      (fetch_block P S q b).2.cache = q.cache ∧
      (fetch_block P S q b).2.history = q.history ∧
      (fetch_block P S q b).2.index = q.index) :=
  ⟨gzio_do_read_loop_stream_failure P S k hB hfail len priv [] off len (Nat.le_refl _) hlen
      h64 hk1 hk2 hnr,
   fun q b hq hf => fetch_block_stream_failure P S q b hq hf⟩

/-- Witness for C10: a ten-byte image read over `[2, 11)` with four-byte
blocks; block 2 is cut short by the end of the image, block 0 is resident. -/
theorem gzio_do_read_stream_failure_witness :
    (∃ buf priv', gzio_do_read ⟨4, 2⟩ (imageStream (List.replicate 10 7))
        (fetch_seq ⟨4, 2⟩ (imageStream (List.replicate 10 7)) (gzio_open ⟨4, 2⟩) [0]) 2 9
      = some (-1, buf, priv')) ∧
    (∀ (q : gzio_priv) (b : Nat), mapFind q.cache b = none →
      (gzseek (imageStream (List.replicate 10 7))
          ((b * (⟨4, 2⟩ : GzParams).GZ_CACHE_BLOCKSIZE) % 2 ^ 64) = false ∨
        (gzread (imageStream (List.replicate 10 7))
          ((b * (⟨4, 2⟩ : GzParams).GZ_CACHE_BLOCKSIZE) % 2 ^ 64)
          (⟨4, 2⟩ : GzParams).GZ_CACHE_BLOCKSIZE).length
          ≠ (⟨4, 2⟩ : GzParams).GZ_CACHE_BLOCKSIZE) →
      (fetch_block ⟨4, 2⟩ (imageStream (List.replicate 10 7)) q b).1 = none ∧
      (fetch_block ⟨4, 2⟩ (imageStream (List.replicate 10 7)) q b).2.cache = q.cache ∧
      (fetch_block ⟨4, 2⟩ (imageStream (List.replicate 10 7)) q b).2.history = q.history ∧
      (fetch_block ⟨4, 2⟩ (imageStream (List.replicate 10 7)) q b).2.index = q.index) :=
  gzio_do_read_stream_failure ⟨4, 2⟩ (imageStream (List.replicate 10 7)) _ 2 9 2
    (by decide) (by decide) (by decide) (by decide) (by decide) (by decide)
    (Or.inr (by decide))

/-! ## The configured offset -/

theorem fetch_block_set_offset (P : GzParams) (S : GzStream) (priv : gzio_priv) (v b : Nat) :
    fetch_block P S { priv with offset := v } b =
      ((fetch_block P S priv b).1, { (fetch_block P S priv b).2 with offset := v }) := by
  unfold fetch_block
  simp only
  cases mapFind priv.cache b with
  | some d => rfl
  | none =>
    simp only
    split_ifs <;> rfl

/-- `gzio_do_read` neither reads nor changes the `offset` field. -/
theorem gzio_do_read_loop_set_offset (P : GzParams) (S : GzStream) (v : Nat) :
    ∀ (fuel : Nat) (priv : gzio_priv) (buf : List Byte) (off len : Nat),
      gzio_do_read_loop P S fuel { priv with offset := v } buf off len =
        (gzio_do_read_loop P S fuel priv buf off len).map
          (fun r => (r.1, r.2.1, { r.2.2 with offset := v })) := by
  intro fuel
  induction fuel with
  | zero =>
    intro priv buf off len
    rw [gzio_do_read_loop, gzio_do_read_loop]
    split <;> rfl
  | succ fuel ih =>
    intro priv buf off len
    rw [gzio_do_read_loop, gzio_do_read_loop]
    split
    · rfl
    · simp only
      rw [fetch_block_set_offset]
      generalize fetch_block P S priv (off / P.GZ_CACHE_BLOCKSIZE) = res
      obtain ⟨r1, priv1⟩ := res
      cases r1 with
      | none => rfl
      | some data => exact ih _ _ _ _

theorem gzio_do_read_set_offset (P : GzParams) (S : GzStream) (v : Nat) (priv : gzio_priv)
    (off len : Nat) :
    gzio_do_read P S { priv with offset := v } off len =
      (gzio_do_read P S priv off len).map
        (fun r => (r.1, r.2.1, { r.2.2 with offset := v })) :=
  gzio_do_read_loop_set_offset P S v len priv [] off len

theorem toU64_natCast (n : Nat) (h : n < 2 ^ 64) : toU64 (n : Int) = n := by
  unfold toU64
  have : ((n : Int) % 2 ^ 64) = (n : Int) := Int.emod_eq_of_lt (by omega) (by exact_mod_cast h)
  rw [this]
  simp

/-- The byte count `len` computed by `gzio_read_blk` for `count = -N`. -/
theorem read_blk_len_neg (bs : Int) (N : Nat) (hN : N < 2 ^ 31) :
    toU64 (if -(N : Int) < 0 then - -(N : Int) else -(N : Int) * bs) = N := by
  by_cases h0 : N = 0
  · subst h0
    simp [toU64]
  · have : -(N : Int) < 0 := by omega
    rw [if_pos this, neg_neg]
    exact toU64_natCast N (by omega)

/-- C4: once `gzio_set_option(channel, "offset", "512")` has returned `0`,
`gzio_read_blk` and `gzio_read_blk64` with block `0` and count `-N` (a byte
count of `N`) return what `gzio_do_read(512, N)` returns on the store as it was
before the option was set, status and bytes alike, the stored offset being the
only difference in the state; and in general both functions read at
`(offset + block * block_size) mod 2^64`. -/
theorem gzio_read_blk_offset (P : GzParams) (S : GzStream) (E : Ext2Err)
    (channel : io_channel) (N : Nat) (hN : N < 2 ^ 31) :
    (gzio_set_option E channel "offset".toList (some "512".toList)).1 = 0 ∧
    gzio_read_blk P S (gzio_set_option E channel "offset".toList (some "512".toList)).2
        0 (-(N : Int)) =
      (gzio_do_read P S channel.private_data 512 N).map
        (fun r => (r.1, r.2.1,
          ({ channel with private_data := { r.2.2 with offset := 512 } } : io_channel))) ∧
    gzio_read_blk64 P S (gzio_set_option E channel "offset".toList (some "512".toList)).2
        0 (-(N : Int)) =
      (gzio_do_read P S channel.private_data 512 N).map
        (fun r => (r.1, r.2.1,
          ({ channel with private_data := { r.2.2 with offset := 512 } } : io_channel))) ∧
    (∀ (ch : io_channel) (block : Nat) (count : Int),
      gzio_read_blk P S ch block count =
        (gzio_do_read P S ch.private_data
          ((ch.private_data.offset + block * toU64 ch.block_size) % 2 ^ 64)
          (toU64 (if count < 0 then -count else count * ch.block_size))).map
          (fun r => (r.1, r.2.1, ({ ch with private_data := r.2.2 } : io_channel))) ∧
      gzio_read_blk64 P S ch block count = gzio_read_blk P S ch block count) := by
  have hopt : gzio_set_option E channel "offset".toList (some "512".toList) =
      (0, { channel with private_data := { channel.private_data with offset := 512 } }) := by
    have : toU64 (atoi "512".toList) = 512 := by decide
    simp only [gzio_set_option, if_true, this]
  have hread : gzio_read_blk P S
      { channel with private_data := { channel.private_data with offset := 512 } }
      0 (-(N : Int)) =
      (gzio_do_read P S channel.private_data 512 N).map
        (fun r => (r.1, r.2.1,
          ({ channel with private_data := { r.2.2 with offset := 512 } } : io_channel))) := by
    simp only [gzio_read_blk]
    rw [read_blk_len_neg _ N hN]
    have hoff : (512 + 0 * toU64 channel.block_size % 2 ^ 64) % 2 ^ 64 = 512 := by
      rw [Nat.zero_mul]; rfl
    rw [hoff, gzio_do_read_set_offset]
    cases gzio_do_read P S channel.private_data 512 N <;> rfl
  refine ⟨by rw [hopt], by rw [hopt]; exact hread, by rw [hopt]; exact hread, ?_⟩
  intro ch block count
  refine ⟨?_, rfl⟩
  simp only [gzio_read_blk, Nat.add_mod_mod]

/-- Witness for C4: three bytes of an image of 1024 bytes. -/
theorem gzio_read_blk_offset_witness :
    gzio_read_blk ⟨256, 2⟩ (imageStream (List.replicate 1024 7))
        (gzio_set_option ext2Err ⟨1024, gzio_open ⟨256, 2⟩⟩ "offset".toList
          (some "512".toList)).2 0 (-((3 : Nat) : Int)) =
      (gzio_do_read ⟨256, 2⟩ (imageStream (List.replicate 1024 7))
        (⟨1024, gzio_open ⟨256, 2⟩⟩ : io_channel).private_data 512 3).map
        (fun r => (r.1, r.2.1,
          ({ (⟨1024, gzio_open ⟨256, 2⟩⟩ : io_channel) with
              private_data := { r.2.2 with offset := 512 } } : io_channel))) :=
  (gzio_read_blk_offset ⟨256, 2⟩ (imageStream (List.replicate 1024 7)) ext2Err
    ⟨1024, gzio_open ⟨256, 2⟩⟩ 3 (by decide)).2.1

/-! ## `gzio_set_option` -/

theorem atoi_digits_eq_foldl (ds : List Char) (hd : ∀ c ∈ ds, c.isDigit = true) :
    ∀ acc, atoi_digits acc ds = ds.foldl (fun n c => n * 10 + (c.toNat - 48)) acc := by
  induction ds with
  | nil => intro acc; rfl
  | cons c cs ih =>
    intro acc
    have hc : c.isDigit = true := hd c (List.mem_cons_self _ _)
    simp only [atoi_digits, hc, if_true, List.foldl_cons]
    exact ih (fun x hx => hd x (List.mem_cons_of_mem _ hx)) _

/-- On a string made of decimal digits only, `strtol` gives the number
written, capped at `LONG_MAX`. -/
theorem strtol10_of_digits (a : List Char) (hd : ∀ c ∈ a, c.isDigit = true) :
    strtol10 a = min (2 ^ 63 - 1) (decimal_value a : Int) := by
  cases a with
  | nil => rfl
  | cons c cs =>
    have hc : c.isDigit = true := hd c (List.mem_cons_self _ _)
    have hsp : isspace c = false := by
      have h1 : c ≠ ' ' := by
        intro h; subst h; revert hc; decide
      have h2 : c ≠ '\t' := by
        intro h; subst h; revert hc; decide
      have h3 : c ≠ '\n' := by
        intro h; subst h; revert hc; decide
      have h4 : c ≠ Char.ofNat 11 := by
        intro h; subst h; revert hc; decide
      have h5 : c ≠ Char.ofNat 12 := by
        intro h; subst h; revert hc; decide
      have h6 : c ≠ '\r' := by
        intro h; subst h; revert hc; decide
      simp [isspace, h1, h2, h3, h4, h5, h6]
    have hminus : c ≠ '-' := by
      intro h; subst h; revert hc; decide
    have hplus : c ≠ '+' := by
      intro h; subst h; revert hc; decide
    have hdw : List.dropWhile isspace (c :: cs) = c :: cs := by
      simp [List.dropWhile, hsp]
    unfold strtol10
    rw [hdw]
    split
    · rename_i heq; cases heq; exact absurd rfl hminus
    · rename_i heq; cases heq; exact absurd rfl hplus
    · rw [atoi_digits_eq_foldl _ hd]
      rfl

/-- The result of `atoi` is in the range of a 32-bit `int`. -/
theorem atoi_range (a : List Char) : -(2 ^ 31) ≤ atoi a ∧ atoi a < 2 ^ 31 := by
  unfold atoi toInt32
  have h1 := Int.emod_nonneg (strtol10 a + 2 ^ 31) (by norm_num : (2 ^ 32 : Int) ≠ 0)
  have h2 := Int.emod_lt_of_pos (strtol10 a + 2 ^ 31) (by norm_num : (0 : Int) < 2 ^ 32)
  constructor <;> omega

/-- The `uint64_t` made from an `int` is below `2 ^ 31` or at least
`2 ^ 64 - 2 ^ 31`. -/
theorem toU64_atoi_range (a : List Char) :
    toU64 (atoi a) < 2 ^ 31 ∨ 2 ^ 64 - 2 ^ 31 ≤ toU64 (atoi a) := by
  obtain ⟨h1, h2⟩ := atoi_range a
  unfold toU64
  generalize atoi a = z at h1 h2
  norm_num at h1 h2 ⊢
  omega

/-- On a string of decimal digits whose number fits an `int`, the offset made
from `atoi` is the number written. -/
theorem toU64_atoi_of_digits (a : List Char) (hd : ∀ c ∈ a, c.isDigit = true)
    (hfit : decimal_value a < 2 ^ 31) : toU64 (atoi a) = decimal_value a := by
  have hval : atoi a = (decimal_value a : Int) := by
    unfold atoi toInt32
    rw [strtol10_of_digits a hd]
    generalize decimal_value a = n at hfit
    norm_num at hfit ⊢
    omega
  rw [hval]
  exact toU64_natCast _ (by omega)

/-- Numbers that do not fit an `int` are not stored as written: `2 ^ 31` becomes
`2 ^ 64 - 2 ^ 31` and `2 ^ 32` becomes `0`. -/
theorem toU64_atoi_beyond_int :
    toU64 (atoi "2147483648".toList) = 18446744071562067968 ∧
    toU64 (atoi "4294967296".toList) = 0 := by
  decide

/-- C5, as the code has it: with option `"offset"`, `gzio_set_option` returns
`EXT2_ET_INVALID_ARGUMENT` exactly when the value is missing, and then leaves
the channel unchanged; for every value string it returns `0` and stores the
`int` returned by `atoi(value)`, converted to `uint64_t`.  The stored offset is
therefore below `2 ^ 31` or at least `2 ^ 64 - 2 ^ 31`, and for a string of
decimal digits whose number is below `2 ^ 31` it is the number written. -/
theorem gzio_set_option_offset (E : Ext2Err) (channel : io_channel)
    (arg : Option (List Char)) :
    ((gzio_set_option E channel "offset".toList arg).1 = E.EXT2_ET_INVALID_ARGUMENT
      ↔ arg = none) ∧
    ((gzio_set_option E channel "offset".toList arg).1 = E.EXT2_ET_INVALID_ARGUMENT →
      (gzio_set_option E channel "offset".toList arg).2 = channel) ∧
    (∀ a, arg = some a →
      gzio_set_option E channel "offset".toList arg =
        (0, { channel with
              private_data := { channel.private_data with offset := toU64 (atoi a) } })) ∧
    (∀ a, arg = some a →
      (gzio_set_option E channel "offset".toList arg).2.private_data.offset < 2 ^ 31 ∨
      2 ^ 64 - 2 ^ 31 ≤
        (gzio_set_option E channel "offset".toList arg).2.private_data.offset) ∧
    (∀ a, arg = some a → (∀ c ∈ a, c.isDigit = true) → decimal_value a < 2 ^ 31 →
      (gzio_set_option E channel "offset".toList arg).2.private_data.offset
        = decimal_value a) := by
  cases arg with
  | none =>
    refine ⟨by simp [gzio_set_option], by simp [gzio_set_option], ?_, ?_, ?_⟩
    · intro a h; cases h
    · intro a h; cases h
    · intro a h; cases h
  | some a =>
    have hz : (0 : Int) ≠ E.EXT2_ET_INVALID_ARGUMENT := fun h => E.invalid_argument_ne_zero h.symm
    have hres : gzio_set_option E channel "offset".toList (some a) =
        (0, { channel with
              private_data := { channel.private_data with offset := toU64 (atoi a) } }) := by
      simp only [gzio_set_option, if_true]
    rw [hres]
    refine ⟨?_, ?_, ?_, ?_, ?_⟩
    · constructor
      · intro h; exact absurd h hz
      · intro h; cases h
    · intro h; exact absurd h hz
    · intro a' h
      cases h
      rfl
    · intro a' h
      cases h
      exact toU64_atoi_range a
    · intro a' h hd hfit
      cases h
      exact toU64_atoi_of_digits a hd hfit

/-- Counterexample to C5 as stated: the values `"abc"`, `""` and `"12x"` are
not valid decimal numbers, yet `gzio_set_option` returns `0` for each and
overwrites the stored offset `512` with `0`, `0` and `12`. -/
theorem set_option_accepts_non_numbers :
    gzio_set_option ext2Err ⟨1024, { gzio_open ⟨4, 2⟩ with offset := 512 }⟩
        "offset".toList (some "abc".toList)
      = (0, ⟨1024, { gzio_open ⟨4, 2⟩ with offset := 0 }⟩) ∧
    gzio_set_option ext2Err ⟨1024, { gzio_open ⟨4, 2⟩ with offset := 512 }⟩
        "offset".toList (some "".toList)
      = (0, ⟨1024, { gzio_open ⟨4, 2⟩ with offset := 0 }⟩) ∧
    gzio_set_option ext2Err ⟨1024, { gzio_open ⟨4, 2⟩ with offset := 512 }⟩
        "offset".toList (some "12x".toList)
      = (0, ⟨1024, { gzio_open ⟨4, 2⟩ with offset := 12 }⟩) := by
  decide

/-! ## The path cache -/

/-- A path that is empty or cached resolves without any library call. -/
theorem lookup_path_hit (L : Ext2Lib) (priv : gzfs_priv) (path : List Char) (inum : Nat)
    (h : (path = [] ∧ inum = EXT2_ROOT_INO) ∨
      (path ≠ [] ∧ mapFind priv.path_cache path = some inum)) :
    lookup_path L priv path = (some inum, priv) := by
  rcases h with ⟨hp, hi⟩ | ⟨hp, hf⟩
  · subst hp; subst hi; simp [lookup_path]
  · simp [lookup_path, hp, hf]

/-- The three ways the miss path of `lookup_path` can go. -/
theorem lookup_path_miss (L : Ext2Lib) (priv : gzfs_priv) (path : List Char)
    (hne : path ≠ []) (hmiss : mapFind priv.path_cache path = none) :
    (∃ fs1, lookup_path_loop L priv.fs EXT2_ROOT_INO path = (none, fs1) ∧
      lookup_path L priv path = (none, { priv with fs := fs1 })) ∨
    (∃ dir p fs1, lookup_path_loop L priv.fs EXT2_ROOT_INO path = (some (dir, p), fs1) ∧
      L.lookup fs1 dir p = none ∧
      lookup_path L priv path =
        (none, { priv with fs := Ext2Call.ext2fs_lookup dir p :: fs1 })) ∨
    (∃ dir p fs1 inum,
      lookup_path_loop L priv.fs EXT2_ROOT_INO path = (some (dir, p), fs1) ∧
      L.lookup fs1 dir p = some inum ∧
      lookup_path L priv path =
        (some inum,
          { priv with
            fs := Ext2Call.ext2fs_lookup dir p :: fs1
            path_cache := mapAssign priv.path_cache path inum })) := by
  simp only [lookup_path, if_neg hne, hmiss]
  generalize lookup_path_loop L priv.fs EXT2_ROOT_INO path = res
  obtain ⟨r, fs1⟩ := res
  cases r with
  | none => exact Or.inl ⟨fs1, rfl, rfl⟩
  | some dp =>
    obtain ⟨dir, p⟩ := dp
    cases hl : L.lookup fs1 dir p with
    | none => exact Or.inr (Or.inl ⟨dir, p, fs1, rfl, hl, by simp [hl]⟩)
    | some inum => exact Or.inr (Or.inr ⟨dir, p, fs1, inum, rfl, hl, by simp [hl]⟩)

/-- After a successful `lookup_path` the path is empty or cached. -/
theorem lookup_path_success (L : Ext2Lib) (priv priv1 : gzfs_priv) (path : List Char)
    (inum : Nat) (h : lookup_path L priv path = (some inum, priv1)) :
    priv1.dir_cache = priv.dir_cache ∧ priv1.file_table = priv.file_table ∧
    ((path = [] ∧ inum = EXT2_ROOT_INO) ∨
      (path ≠ [] ∧ mapFind priv1.path_cache path = some inum)) := by
  by_cases hne : path = []
  · subst hne
    simp only [lookup_path, if_true, Prod.mk.injEq, Option.some.injEq] at h
    obtain ⟨h1, h2⟩ := h
    subst h1; subst h2
    exact ⟨rfl, rfl, Or.inl ⟨rfl, rfl⟩⟩
  · cases hf : mapFind priv.path_cache path with
    | some i =>
      rw [lookup_path_hit L priv path i (Or.inr ⟨hne, hf⟩)] at h
      simp only [Prod.mk.injEq, Option.some.injEq] at h
      obtain ⟨h1, h2⟩ := h
      subst h1; subst h2
      exact ⟨rfl, rfl, Or.inr ⟨hne, hf⟩⟩
    | none =>
      rcases lookup_path_miss L priv path hne hf with
        ⟨fs1, _, heq⟩ | ⟨dir, p, fs1, _, _, heq⟩ | ⟨dir, p, fs1, i, _, _, heq⟩
      · rw [heq] at h; simp at h
      · rw [heq] at h; simp at h
      · rw [heq] at h
        simp only [Prod.mk.injEq, Option.some.injEq] at h
        obtain ⟨h1, h2⟩ := h
        subst h1; subst h2
        exact ⟨rfl, rfl, Or.inr ⟨hne, mapFind_assign_self _ _ _⟩⟩

/-- C6: if `lookup_path` succeeds on a path (non-empty or not), a second
`lookup_path` on the same path succeeds with the same inode and leaves the
state as it is; in particular the log of library calls does not grow, so no
`ext2fs_lookup` is made. -/
theorem lookup_path_second_call (L : Ext2Lib) (priv priv1 : gzfs_priv) (path : List Char)
    (inum : Nat) (h : lookup_path L priv path = (some inum, priv1)) :
    lookup_path L priv1 path = (some inum, priv1) ∧
    (lookup_path L priv1 path).2.fs = priv1.fs := by
  have hhit := lookup_path_hit L priv1 path inum (lookup_path_success L priv priv1 path inum h).2.2
  exact ⟨hhit, by rw [hhit]⟩

/-- Witness for C6: the path `a/b` resolved twice against the sample library,
the first time through two calls of `ext2fs_lookup`. -/
theorem lookup_path_second_call_witness :
    lookup_path sampleLib
        { fs := [Ext2Call.ext2fs_lookup 11 ['b'], Ext2Call.ext2fs_lookup 2 ['a']]
          path_cache := [(['a', '/', 'b'], 12)], dir_cache := [], file_table := [] }
        ['a', '/', 'b']
      = (some 12,
        { fs := [Ext2Call.ext2fs_lookup 11 ['b'], Ext2Call.ext2fs_lookup 2 ['a']]
          path_cache := [(['a', '/', 'b'], 12)], dir_cache := [], file_table := [] }) ∧
    (lookup_path sampleLib
        { fs := [Ext2Call.ext2fs_lookup 11 ['b'], Ext2Call.ext2fs_lookup 2 ['a']]
          path_cache := [(['a', '/', 'b'], 12)], dir_cache := [], file_table := [] }
        ['a', '/', 'b']).2.fs
      = [Ext2Call.ext2fs_lookup 11 ['b'], Ext2Call.ext2fs_lookup 2 ['a']] :=
  lookup_path_second_call sampleLib gzfs_init _ ['a', '/', 'b'] 12
    (by simp [lookup_path, lookup_path_loop, strchr, sampleLib, gzfs_init, mapFind,
      mapAssign, mapErase, EXT2_ROOT_INO])

/-- With a `filler` that always returns `0` the loop of `gzfs_readdir` hands it
every name, first to last. -/
theorem gzfs_readdir_loop_all {β : Type} (filler : β → List Char → Int × β)
    (hfill : ∀ b n, (filler b n).1 = 0) (names : List (List Char)) :
    ∀ buf, gzfs_readdir_loop filler names buf
      = names.foldl (fun b n => (filler b n).2) buf := by
  induction names with
  | nil => intro buf; rfl
  | cons n rest ih =>
    intro buf
    simp only [gzfs_readdir_loop, hfill, ne_eq, not_true_eq_false, if_false, List.foldl_cons]
    exact ih _

theorem dir_iterator_foldl (names : List (List Char)) :
    ∀ acc, names.foldl (fun a n => (dir_iterator a n).2) acc = acc ++ names := by
  induction names with
  | nil => intro acc; simp
  | cons n rest ih =>
    intro acc
    rw [List.foldl_cons, ih]
    simp [dir_iterator]

/-- C8: let `/rest` resolve to the directory inode `inum`, let the directory
not be cached yet, and let `ext2fs_dir_iterate` succeed on it reporting
`names`.  With a `filler` that never returns nonzero, `gzfs_readdir` returns
`0` after handing `filler` each name once, in the reported order; and every
later `gzfs_readdir` on the same path, from the state the first one left,
does the same, without changing the state (so without any library call). -/
theorem gzfs_readdir_order {β : Type} (L : Ext2Lib) (priv priv1 : gzfs_priv)
    (rest : List Char) (inum : Nat) (names : List (List Char))
    (filler : β → List Char → Int × β) (buf : β)
    (hpath : lookup_path L priv rest = (some inum, priv1))
    (hmiss : mapFind priv1.dir_cache inum = none)
    (henum : L.dir_iterate priv1.fs inum = (names, true))
    (hfill : ∀ b n, (filler b n).1 = 0) :
    ∃ priv2,
      gzfs_readdir L priv ('/' :: rest) buf filler
        = (0, names.foldl (fun b n => (filler b n).2) buf, priv2) ∧
      ∀ buf', gzfs_readdir L priv2 ('/' :: rest) buf' filler
        = (0, names.foldl (fun b n => (filler b n).2) buf', priv2) := by
  have hdir : lookup_dir L priv1 inum [] =
      (true, names,
        { priv1 with
          fs := Ext2Call.ext2fs_dir_iterate inum :: priv1.fs
          dir_cache := mapAssign priv1.dir_cache inum names }) := by
    simp [lookup_dir, hmiss, ext2fs_dir_iterate, henum, dir_iterator_foldl]
  refine ⟨{ priv1 with
            fs := Ext2Call.ext2fs_dir_iterate inum :: priv1.fs
            dir_cache := mapAssign priv1.dir_cache inum names }, ?_, ?_⟩
  · simp only [gzfs_readdir, hpath, hdir, gzfs_readdir_loop_all filler hfill]
  · intro buf'
    have hsucc := (lookup_path_success L priv priv1 rest inum hpath).2.2
    have hpath2 := lookup_path_hit L
      { priv1 with
        fs := Ext2Call.ext2fs_dir_iterate inum :: priv1.fs
        dir_cache := mapAssign priv1.dir_cache inum names } rest inum hsucc
    have hdir2 : lookup_dir L
        { priv1 with
          fs := Ext2Call.ext2fs_dir_iterate inum :: priv1.fs
          dir_cache := mapAssign priv1.dir_cache inum names } inum [] =
        (true, names,
          { priv1 with
            fs := Ext2Call.ext2fs_dir_iterate inum :: priv1.fs
            dir_cache := mapAssign priv1.dir_cache inum names }) := by
      simp [lookup_dir, mapFind_assign_self]
    simp only [gzfs_readdir, hpath2, hdir2, gzfs_readdir_loop_all filler hfill]

/-- Witness for C8: `/a/b` of the sample library, whose entries are `x`, `y`,
`z`, read with a `filler` that appends each name to the buffer. -/
theorem gzfs_readdir_order_witness :
    ∃ priv2,
      gzfs_readdir sampleLib gzfs_init ['/', 'a', '/', 'b'] ([] : List (List Char))
          (fun b n => (0, b ++ [n]))
        = (0, [['x'], ['y'], ['z']], priv2) ∧
      ∀ buf', gzfs_readdir sampleLib priv2 ['/', 'a', '/', 'b'] buf'
          (fun b n => (0, b ++ [n]))
        = (0, [['x'], ['y'], ['z']].foldl (fun b n => b ++ [n]) buf', priv2) :=
  gzfs_readdir_order sampleLib gzfs_init
    { fs := [Ext2Call.ext2fs_lookup 11 ['b'], Ext2Call.ext2fs_lookup 2 ['a']]
      path_cache := [(['a', '/', 'b'], 12)], dir_cache := [], file_table := [] }
    ['a', '/', 'b'] 12 [['x'], ['y'], ['z']] (fun b n => (0, b ++ [n])) []
    (by simp [lookup_path, lookup_path_loop, strchr, sampleLib, gzfs_init, mapFind,
      mapAssign, mapErase, EXT2_ROOT_INO])
    (by decide) (by decide) (fun _ _ => rfl)

/-! ## The file table -/

/-- C9, as the code has it: a `gzfs_read` on a handle that is in the file table
returns normally; it calls `ext2fs_file_llseek` and, if that succeeds,
`ext2fs_file_read`, both on that handle's file context and on no other; it
returns `-1` with nothing stored when either call fails and the number of
bytes read otherwise; and it leaves the file table and the caches as they
are. -/
theorem gzfs_read_registered (L : Ext2Lib) (priv : gzfs_priv) (fh size : Nat) (off : Int)
    (st : file_state) (h : mapFind priv.file_table fh = some st) :
    ∃ rc data fs1,
      gzfs_read L priv fh size off = Outcome.ret (rc, data, { priv with fs := fs1 }) ∧
      ((fs1 = Ext2Call.ext2fs_file_llseek fh off :: priv.fs ∧ rc = -1 ∧ data = [] ∧
          L.file_llseek priv.fs fh off = false) ∨
       (fs1 = Ext2Call.ext2fs_file_read fh size ::
            Ext2Call.ext2fs_file_llseek fh off :: priv.fs ∧
          L.file_llseek priv.fs fh off = true ∧
          ((rc = -1 ∧ data = [] ∧
              L.file_read (Ext2Call.ext2fs_file_llseek fh off :: priv.fs) fh size = none) ∨
           (rc = (data.length : Int) ∧
              L.file_read (Ext2Call.ext2fs_file_llseek fh off :: priv.fs) fh size
                = some data)))) := by
  simp only [gzfs_read, h]
  cases hs : L.file_llseek priv.fs fh off with
  | false => exact ⟨-1, [], _, by simp, Or.inl ⟨rfl, rfl, rfl, rfl⟩⟩
  | true =>
    cases hr : L.file_read (Ext2Call.ext2fs_file_llseek fh off :: priv.fs) fh size with
    | none =>
      exact ⟨-1, [], _, by simp, Or.inr ⟨rfl, rfl, Or.inl ⟨rfl, rfl, rfl⟩⟩⟩
    | some data =>
      exact ⟨(data.length : Int), data, _, by simp, Or.inr ⟨rfl, rfl, Or.inr ⟨rfl, rfl⟩⟩⟩

/-- Witness for the amended C9: a read on handle 5 right after it was opened. -/
theorem gzfs_read_registered_witness :
    ∃ rc data fs1,
      gzfs_read sampleLib
          { fs := [], path_cache := [], dir_cache := [], file_table := [(5, file_state.mk)] }
          5 16 0
        = Outcome.ret (rc, data,
          { ({ fs := [], path_cache := [], dir_cache := [],
               file_table := [(5, file_state.mk)] } : gzfs_priv) with fs := fs1 }) ∧
      ((fs1 = Ext2Call.ext2fs_file_llseek 5 0 :: [] ∧ rc = -1 ∧ data = [] ∧
          sampleLib.file_llseek [] 5 0 = false) ∨
       (fs1 = Ext2Call.ext2fs_file_read 5 16 :: Ext2Call.ext2fs_file_llseek 5 0 :: [] ∧
          sampleLib.file_llseek [] 5 0 = true ∧
          ((rc = -1 ∧ data = [] ∧
              sampleLib.file_read (Ext2Call.ext2fs_file_llseek 5 0 :: []) 5 16 = none) ∨
           (rc = (data.length : Int) ∧
              sampleLib.file_read (Ext2Call.ext2fs_file_llseek 5 0 :: []) 5 16
                = some data)))) :=
  gzfs_read_registered sampleLib
    { fs := [], path_cache := [], dir_cache := [], file_table := [(5, file_state.mk)] }
    5 16 0 file_state.mk (by decide)

/-- Counterexample to C9 as stated: `/a/b` is opened (handle 5) and released;
the handle is then absent from the file table, and a `gzfs_read` on it does
not return an error: the model reaches the dereference of `end()`. -/
theorem gzfs_read_after_release_undefined :
    gzfs_open sampleLib gzfs_init ['/', 'a', '/', 'b'] =
      (0, some 5,
        { fs := [Ext2Call.ext2fs_file_open 12, Ext2Call.ext2fs_lookup 11 ['b'],
                 Ext2Call.ext2fs_lookup 2 ['a']]
          path_cache := [(['a', '/', 'b'], 12)], dir_cache := []
          file_table := [(5, file_state.mk)] }) ∧
    gzfs_release
        { fs := [Ext2Call.ext2fs_file_open 12, Ext2Call.ext2fs_lookup 11 ['b'],
                 Ext2Call.ext2fs_lookup 2 ['a']]
          path_cache := [(['a', '/', 'b'], 12)], dir_cache := []
          file_table := [(5, file_state.mk)] } 5 =
      Outcome.ret (0,
        { fs := [Ext2Call.ext2fs_file_close 5, Ext2Call.ext2fs_file_open 12,
                 Ext2Call.ext2fs_lookup 11 ['b'], Ext2Call.ext2fs_lookup 2 ['a']]
          path_cache := [(['a', '/', 'b'], 12)], dir_cache := [], file_table := [] }) ∧
    gzfs_read sampleLib
        { fs := [Ext2Call.ext2fs_file_close 5, Ext2Call.ext2fs_file_open 12,
                 Ext2Call.ext2fs_lookup 11 ['b'], Ext2Call.ext2fs_lookup 2 ['a']]
          path_cache := [(['a', '/', 'b'], 12)], dir_cache := [], file_table := [] }
        5 16 0 = Outcome.undefined := by
  refine ⟨?_, by decide, by decide⟩
  simp [gzfs_open, lookup_path, lookup_path_loop, strchr, sampleLib, gzfs_init, mapFind,
    mapAssign, mapErase, EXT2_ROOT_INO]

/-! ## The eviction target is resident -/

/-- Every block of the window of last installs sits in the history ring. -/
theorem FifoInv.window_subset_history {P : GzParams} {priv : gzio_priv} {ins : List Nat}
    (h : FifoInv P priv ins) :
    ins.drop (ins.length - P.GZ_CACHE_SIZE) ⊆ priv.history := by
  intro x hx
  obtain ⟨j, hj⟩ := List.mem_iff_getElem?.mp hx
  rw [List.getElem?_drop] at hj
  have hlt : ins.length - P.GZ_CACHE_SIZE + j < ins.length := by
    by_contra hge
    rw [List.getElem?_eq_none (by omega)] at hj
    cases hj
  have hh := h.hist (ins.length - P.GZ_CACHE_SIZE + j) hlt (by omega)
  rw [hj] at hh
  exact List.getElem?_mem hh

/-- Under the FIFO relation the resident blocks are pairwise distinct entries of
the ring, the cursor is inside the ring, and a full cache is listed one-to-one
by the ring, so that the slot under the cursor names a resident block. -/
theorem FifoInv.ring_lists_residents {P : GzParams} {priv : gzio_priv} {ins : List Nat}
    (h : FifoInv P priv ins) (hC : 0 < P.GZ_CACHE_SIZE) :
    (mapKeys priv.cache).Nodup ∧
    (∀ k, k ∈ mapKeys priv.cache → k ∈ priv.history) ∧
    priv.index < priv.history.length ∧
    (mapSize priv.cache = P.GZ_CACHE_SIZE →
      priv.history.Nodup ∧
      priv.history.Perm (mapKeys priv.cache) ∧
      (mapFind priv.cache (priv.history.getD priv.index 0)).isSome = true) := by
  have hnd : (mapKeys priv.cache).Nodup := h.keys_perm.nodup_iff.mpr h.window_nodup
  refine ⟨hnd, ?_, ?_, ?_⟩
  · intro k hk
    exact h.window_subset_history (h.keys_perm.mem_iff.mp hk)
  · rw [h.hist_len, h.index_eq]
    exact Nat.mod_lt _ hC
  · intro hfull
    obtain ⟨hlen, _, hdrop⟩ := h.evict_target hC hfull
    have hwlen : (ins.drop (ins.length - P.GZ_CACHE_SIZE)).length = P.GZ_CACHE_SIZE := by
      rw [List.length_drop]; omega
    have hperm : (ins.drop (ins.length - P.GZ_CACHE_SIZE)).Perm priv.history :=
      (List.subperm_of_subset h.window_nodup h.window_subset_history).perm_of_length_le
        (by rw [h.hist_len, hwlen])
    refine ⟨hperm.nodup_iff.mp h.window_nodup, hperm.symm.trans h.keys_perm.symm, ?_⟩
    have hmem : priv.history.getD priv.index 0 ∈ mapKeys priv.cache := by
      rw [h.keys_perm.mem_iff, hdrop]
      exact List.mem_cons_self _ _
    cases hf : mapFind priv.cache (priv.history.getD priv.index 0) with
    | none => exact absurd hmem ((mapFind_eq_none_iff _ _).mp hf)
    | some d => rfl

/-- C11: in every state reachable from `gzio_open` the resident block indices
are pairwise distinct and each of them is an entry of the history ring, and the
cursor `index` points inside the ring; and whenever the cache holds exactly
`GZ_CACHE_SIZE` blocks the ring has no repeated entry and is a rearrangement of
the resident block indices, so the block `history[index]` that `fetch_block`
would evict is resident: `cache.find(evict)` does not return `end()`. -/
theorem evict_target_always_resident (P : GzParams) (S : GzStream) (priv : gzio_priv)
    (hC : 0 < P.GZ_CACHE_SIZE) (h : Reachable P S priv) :
    (mapKeys priv.cache).Nodup ∧
    (∀ k, k ∈ mapKeys priv.cache → k ∈ priv.history) ∧
    priv.index < priv.history.length ∧
    (mapSize priv.cache = P.GZ_CACHE_SIZE →
      priv.history.Nodup ∧
      priv.history.Perm (mapKeys priv.cache) ∧
      (mapFind priv.cache (priv.history.getD priv.index 0)).isSome = true) := by
  obtain ⟨ins, hi⟩ := h.fifo hC
  exact hi.ring_lists_residents hC

/-- Witness for C11: a store of two slots after fetching blocks 0, 1, 0, 2; the
cache is full with blocks 1 and 2 and the cursor is on the slot of block 1. -/
theorem evict_target_always_resident_witness :
    (mapKeys (fetch_seq ⟨4, 2⟩ (imageStream (List.replicate 16 7)) (gzio_open ⟨4, 2⟩)
      [0, 1, 0, 2]).cache).Nodup ∧
    (∀ k, k ∈ mapKeys (fetch_seq ⟨4, 2⟩ (imageStream (List.replicate 16 7))
        (gzio_open ⟨4, 2⟩) [0, 1, 0, 2]).cache →
      k ∈ (fetch_seq ⟨4, 2⟩ (imageStream (List.replicate 16 7)) (gzio_open ⟨4, 2⟩)
        [0, 1, 0, 2]).history) ∧
    (fetch_seq ⟨4, 2⟩ (imageStream (List.replicate 16 7)) (gzio_open ⟨4, 2⟩)
        [0, 1, 0, 2]).index
      < (fetch_seq ⟨4, 2⟩ (imageStream (List.replicate 16 7)) (gzio_open ⟨4, 2⟩)
        [0, 1, 0, 2]).history.length ∧
    (mapSize (fetch_seq ⟨4, 2⟩ (imageStream (List.replicate 16 7)) (gzio_open ⟨4, 2⟩)
        [0, 1, 0, 2]).cache = (⟨4, 2⟩ : GzParams).GZ_CACHE_SIZE →
      (fetch_seq ⟨4, 2⟩ (imageStream (List.replicate 16 7)) (gzio_open ⟨4, 2⟩)
        [0, 1, 0, 2]).history.Nodup ∧
      (fetch_seq ⟨4, 2⟩ (imageStream (List.replicate 16 7)) (gzio_open ⟨4, 2⟩)
        [0, 1, 0, 2]).history.Perm
        (mapKeys (fetch_seq ⟨4, 2⟩ (imageStream (List.replicate 16 7)) (gzio_open ⟨4, 2⟩)
          [0, 1, 0, 2]).cache) ∧
      (mapFind (fetch_seq ⟨4, 2⟩ (imageStream (List.replicate 16 7)) (gzio_open ⟨4, 2⟩)
          [0, 1, 0, 2]).cache
        ((fetch_seq ⟨4, 2⟩ (imageStream (List.replicate 16 7)) (gzio_open ⟨4, 2⟩)
          [0, 1, 0, 2]).history.getD
          (fetch_seq ⟨4, 2⟩ (imageStream (List.replicate 16 7)) (gzio_open ⟨4, 2⟩)
            [0, 1, 0, 2]).index 0)).isSome = true) :=
  evict_target_always_resident ⟨4, 2⟩ (imageStream (List.replicate 16 7)) _ (by decide)
    (Reachable.after_run [0, 1, 0, 2] Reachable.gzio_open)

end GzExt
